import Mathlib

/-!
Verification of the data-transformation pipeline of the Satsang dashboard
(`src/Code.js`): date normalisation (`parseDateValue`), the weekday pivot
aggregator (`processAndSortData`) and the special-event list builder
(`processSpecialSatsangList`).

Modelling conventions (shallow embedding of the Apps Script source):

* A calendar date is a `Ymd` (year/month/day in the single configured fixed
  time zone `GMT+5:30`).  The script runs every conversion in this one fixed
  offset zone, so instants can be identified with calendar days throughout.
* `Utilities.parseDate(s, tz, fmt)` is modelled as a strict parser: it
  succeeds exactly when the string matches the digit pattern of `fmt`
  (two-digit day and month fields, four-digit year, the literal separators)
  and denotes a valid calendar date; otherwise the attempt fails and the
  code falls through to its next attempt, exactly as the `try`/`isNaN`
  chain in the source does.
* `Utilities.formatDate(d, tz, "yyyy-MM-dd")` is modelled as zero-padded
  decimal formatting of the calendar day (`formatYmd` / `formatDmy`).
* JavaScript numbers that reach the date-serial branch are modelled as
  integers (the sheet's day-count serials); `new Date` range checking is
  modelled at day granularity (±100,000,000 days around the epoch).
* `Array.prototype.sort` is modelled as a stable merge sort
  (`List.mergeSort`); ECMAScript requires a stable sort, and for consistent
  comparators every stable algorithm produces this result.
* `localeCompare` on the ASCII keys compared by this program is modelled as
  code-point (dictionary) string comparison, i.e. the `String` order.
-/

namespace MSR

/-! ## Characters, digits and decimal formatting -/

/-- The decimal digit character for `n % 10`. -/
def digitChar (n : Nat) : Char :=
  Char.ofNat (48 + n % 10)

/-- Numeric value of a (digit) character. -/
def charVal (c : Char) : Nat :=
  c.toNat - 48

/-- Is `c` one of the characters `0`-`9`? -/
def isDigitCh (c : Char) : Bool :=
  48 ≤ c.toNat && c.toNat ≤ 57

/-- Two-digit zero-padded decimal rendering (of `n % 100`), as characters. -/
def pad2 (n : Nat) : List Char :=
  [digitChar (n / 10), digitChar n]

/-- Four-digit zero-padded decimal rendering (of `n % 10000`), as characters. -/
def pad4 (n : Nat) : List Char :=
  [digitChar (n / 1000), digitChar (n / 100), digitChar (n / 10), digitChar n]

/-- Value of a two-digit pair of characters. -/
def val2 (a b : Char) : Nat :=
  charVal a * 10 + charVal b

/-- Value of a four-digit group of characters. -/
def val4 (a b c d : Char) : Nat :=
  ((charVal a * 10 + charVal b) * 10 + charVal c) * 10 + charVal d

/-! ## Calendar dates -/

/-- A calendar date in the script's fixed time zone. -/
structure Ymd where
  year : Int
  month : Nat
  day : Nat
deriving DecidableEq, Repr

/-- Gregorian leap-year test. -/
def isLeap (y : Int) : Bool :=
  (y % 4 == 0 && y % 100 != 0) || (y % 400 == 0)

/-- Number of days of month `m` (1-12) of year `y`. -/
def daysInMonth (y : Int) (m : Nat) : Nat :=
  if m = 2 then (if isLeap y then 29 else 28)
  else if m = 4 ∨ m = 6 ∨ m = 9 ∨ m = 11 then 30
  else 31

/-- Validity of a calendar date. -/
def validYmd (dt : Ymd) : Prop :=
  1 ≤ dt.month ∧ dt.month ≤ 12 ∧ 1 ≤ dt.day ∧ dt.day ≤ daysInMonth dt.year dt.month

instance (dt : Ymd) : Decidable (validYmd dt) := by
  unfold validYmd; infer_instance

/-- Strict chronological order on calendar dates. -/
def ymdLt (a b : Ymd) : Prop :=
  a.year < b.year ∨ (a.year = b.year ∧
    (a.month < b.month ∨ (a.month = b.month ∧ a.day < b.day)))

instance (a b : Ymd) : Decidable (ymdLt a b) := by
  unfold ymdLt; infer_instance

/-! Day-number conversions (civil-from-days and days-from-civil, the standard
Gregorian algorithms), used by the serial-number branch of the date
normaliser and by the `new Date(y, m, d)` fallback.  Day 0 is 1970-01-01. -/

/-- Calendar date of day number `z` (days since 1970-01-01). -/
def civilFromDays (z : Int) : Ymd :=
  let z' := z + 719468
  let era := z'.fdiv 146097
  let doe := (z' - era * 146097).toNat
  let yoe := (doe - doe / 1460 + doe / 36524 - doe / 146096) / 365
  let y := (yoe : Int) + era * 400
  let doy := doe - (365 * yoe + yoe / 4 - yoe / 100)
  let mp := (5 * doy + 2) / 153
  let d := doy - (153 * mp + 2) / 5 + 1
  let m := if mp < 10 then mp + 3 else mp - 9
  { year := if m ≤ 2 then y + 1 else y, month := m, day := d }

/-- Day number (days since 1970-01-01) of a calendar date. -/
def daysFromCivil (y : Int) (m d : Nat) : Int :=
  let y' := if m ≤ 2 then y - 1 else y
  let era := y'.fdiv 400
  let yoe := (y' - era * 400).toNat
  let doy := (153 * (if 2 < m then m - 3 else m + 9) + 2) / 5 + d - 1
  let doe := yoe * 365 + yoe / 4 - yoe / 100 + doy
  era * 146097 + (doe : Int) - 719468

/-! ## Canonical date strings -/

/-- The canonical `yyyy-MM-dd` rendering of a date, the model of
`Utilities.formatDate(d, SCRIPT_TIMEZONE, "yyyy-MM-dd")`.  Years outside
0-9999 cannot occur on any path exercised here; they get a marked rendering. -/
def formatYmd (dt : Ymd) : String :=
  if 0 ≤ dt.year ∧ dt.year < 10000 then
    String.mk (pad4 dt.year.toNat ++ '-' :: (pad2 dt.month ++ '-' :: pad2 dt.day))
  else
    String.mk ('Y' :: '?' :: (toString dt.year).data)

/-- The `dd-MM-yyyy` display rendering of a date, the model of
`Utilities.formatDate(d, SCRIPT_TIMEZONE, "dd-MM-yyyy")`. -/
def formatDmy (dt : Ymd) : String :=
  if 0 ≤ dt.year ∧ dt.year < 10000 then
    String.mk (pad2 dt.day ++ '-' :: (pad2 dt.month ++ '-' :: pad4 dt.year.toNat))
  else
    String.mk ('D' :: '?' :: (toString dt.year).data)

/-- Strict parse of a `yyyy-MM-dd` string: exact digit pattern and a valid
calendar date (model of `Utilities.parseDate(s, tz, "yyyy-MM-dd")`). -/
def parseYmdDash (s : String) : Option Ymd :=
  match s.data with
  | [y1, y2, y3, y4, h1, m1, m2, h2, d1, d2] =>
    if h1 = '-' ∧ h2 = '-' ∧ (isDigitCh y1 && isDigitCh y2 && isDigitCh y3 && isDigitCh y4 &&
        isDigitCh m1 && isDigitCh m2 && isDigitCh d1 && isDigitCh d2) = true then
      let dt : Ymd := { year := (val4 y1 y2 y3 y4 : Int), month := val2 m1 m2, day := val2 d1 d2 }
      if validYmd dt then some dt else none
    else none
  | _ => none

/-- Strict parse of a `dd-MM-yyyy` string (model of
`Utilities.parseDate(s, tz, "dd-MM-yyyy")`). -/
def parseDmyDash (s : String) : Option Ymd :=
  match s.data with
  | [d1, d2, h1, m1, m2, h2, y1, y2, y3, y4] =>
    if h1 = '-' ∧ h2 = '-' ∧ (isDigitCh y1 && isDigitCh y2 && isDigitCh y3 && isDigitCh y4 &&
        isDigitCh m1 && isDigitCh m2 && isDigitCh d1 && isDigitCh d2) = true then
      let dt : Ymd := { year := (val4 y1 y2 y3 y4 : Int), month := val2 m1 m2, day := val2 d1 d2 }
      if validYmd dt then some dt else none
    else none
  | _ => none

/-- Strict parse of a `dd/MM/yyyy` string (model of
`Utilities.parseDate(s, tz, "dd/MM/yyyy")`). -/
def parseDmySlash (s : String) : Option Ymd :=
  match s.data with
  | [d1, d2, h1, m1, m2, h2, y1, y2, y3, y4] =>
    if h1 = '/' ∧ h2 = '/' ∧ (isDigitCh y1 && isDigitCh y2 && isDigitCh y3 && isDigitCh y4 &&
        isDigitCh m1 && isDigitCh m2 && isDigitCh d1 && isDigitCh d2) = true then
      let dt : Ymd := { year := (val4 y1 y2 y3 y4 : Int), month := val2 m1 m2, day := val2 d1 d2 }
      if validYmd dt then some dt else none
    else none
  | _ => none

/-- Strict parse of a `MM/dd/yyyy` string (model of
`Utilities.parseDate(s, tz, "MM/dd/yyyy")`). -/
def parseMdySlash (s : String) : Option Ymd :=
  match s.data with
  | [m1, m2, h1, d1, d2, h2, y1, y2, y3, y4] =>
    if h1 = '/' ∧ h2 = '/' ∧ (isDigitCh y1 && isDigitCh y2 && isDigitCh y3 && isDigitCh y4 &&
        isDigitCh m1 && isDigitCh m2 && isDigitCh d1 && isDigitCh d2) = true then
      let dt : Ymd := { year := (val4 y1 y2 y3 y4 : Int), month := val2 m1 m2, day := val2 d1 d2 }
      if validYmd dt then some dt else none
    else none
  | _ => none

/-! ## JavaScript string helpers -/

/-- Split a character list on a separator character. -/
def splitOnCh (sep : Char) : List Char → List (List Char)
  | [] => [[]]
  | c :: cs =>
    if c = sep then [] :: splitOnCh sep cs
    else
      match splitOnCh sep cs with
      | g :: gs => (c :: g) :: gs
      | [] => [[c]]

/-- Decimal value of a digit-character list (most significant first). -/
def digitsVal (cs : List Char) : Nat :=
  cs.foldl (fun a c => a * 10 + charVal c) 0

/-- Are all characters decimal digits? -/
def allDigits (cs : List Char) : Bool :=
  cs.all isDigitCh

/-- JavaScript whitespace (the characters relevant to `String.prototype.trim`
on this data). -/
def isJsWs (c : Char) : Bool :=
  c = ' ' || c = '\t' || c = '\n' || c = '\r'

/-- Model of `String.prototype.trim`. -/
def jsTrim (s : String) : String :=
  String.mk (((s.data.dropWhile isJsWs).reverse.dropWhile isJsWs).reverse)

/-- Boolean character comparison by code point. -/
def charLtB (a b : Char) : Bool :=
  a.toNat < b.toNat

/-- Boolean dictionary (lexicographic) order on character lists. -/
def listLtB : List Char → List Char → Bool
  | [], [] => false
  | [], _ :: _ => true
  | _ :: _, [] => false
  | a :: as, b :: bs =>
    if charLtB a b then true
    else if charLtB b a then false
    else listLtB as bs

/-- Boolean strict string comparison in dictionary (code-point) order. -/
def strLtB (a b : String) : Bool :=
  listLtB a.data b.data

/-- Boolean string comparison, `a ≤ b` in dictionary (code-point) order:
the model of `a.localeCompare(b) <= 0` on the ASCII keys compared here. -/
def strLeB (a b : String) : Bool :=
  ! strLtB b a

/-! ## The generic `new Date(string)` fallback

V8's generic date parser accepts `M/D/YYYY` shapes (one- or two-digit month
and day) with strict range validation, and ISO `yyyy-MM-dd` strings; other
shapes relevant here produce an invalid date.  This models the final
`new Date(trimmedDate)` fallback of `parseDateValue`. -/

def genericDateParse (s : String) : Option Ymd :=
  match splitOnCh '/' s.data with
  | [ms, ds, ys] =>
    if (allDigits ms && allDigits ds && allDigits ys) = true ∧
        1 ≤ ms.length ∧ ms.length ≤ 2 ∧ 1 ≤ ds.length ∧ ds.length ≤ 2 ∧ ys.length = 4 then
      let dt : Ymd := { year := (digitsVal ys : Int), month := digitsVal ms, day := digitsVal ds }
      if validYmd dt then some dt else none
    else none
  | _ => parseYmdDash s

/-! ## The date normaliser `parseDateValue` -/

/-- A raw date-cell value as seen by `parseDateValue`: a string, a number
(day-count serial; JavaScript numbers reaching this branch are modelled as
integers), a native date object with a valid timestamp, or anything else
(`null`, blank, an invalid date object), which every branch rejects. -/
inductive CellValue where
  | str (s : String)
  | num (n : Int)
  | dateObj (dt : Ymd)
  | blank
deriving DecidableEq, Repr

/-- Day number of 1899-12-30, the sheet serial-number epoch used by the
source (`new Date(1899, 11, 30)`). -/
def excelEpochDay : Int := -25569

/-- Model of the JavaScript `Date` validity range, at day granularity
(±100,000,000 days around 1970-01-01; beyond it `getTime()` is `NaN`). -/
def inJsDateRangeDays (d : Int) : Bool :=
  -100000000 ≤ d && d ≤ 100000000

/-- The serial-number branch of `parseDateValue` (Code.js lines 173-188):
base date 1899-12-30 plus `n` days, time-zone offset juggling cancelling at
day granularity in the fixed offset zone; only `isNaN` is checked - the
source has no plausible-year test. -/
def serialToYmd (n : Int) : Option Ymd :=
  if inJsDateRangeDays (excelEpochDay + n) then some (civilFromDays (excelEpochDay + n))
  else none

/-- The four string formats attempted by `parseDateValue`. -/
inductive StrFormat where
  | dmyDash
  | ymdDash
  | dmySlash
  | mdySlash
deriving DecidableEq, Repr

/-- Run one format's strict parser. -/
def runFormat : StrFormat → String → Option Ymd
  | .dmyDash, s => parseDmyDash s
  | .ymdDash, s => parseYmdDash s
  | .dmySlash, s => parseDmySlash s
  | .mdySlash, s => parseMdySlash s

/-- The order in which `parseDateValue` in `src/Code.js` attempts the string
formats, transcribed from the nesting of its `try` blocks (lines 193-222):
`dd-MM-yyyy`, then `yyyy-MM-dd`, then `dd/MM/yyyy`, then `MM/dd/yyyy`. -/
def codeStringFormatOrder : List StrFormat :=
  [.dmyDash, .ymdDash, .dmySlash, .mdySlash]

/-- The attempt order asserted by the specification's words: `yyyy-MM-dd`
first (the canonical/preferred format), then `dd-MM-yyyy`, `dd/MM/yyyy`,
`MM/dd/yyyy`.  Stated only for comparison against `codeStringFormatOrder`. -/
def specClaimedFormatOrder : List StrFormat :=
  [.ymdDash, .dmyDash, .dmySlash, .mdySlash]

/-- Attempt a list of formats in order; the first success wins. -/
def tryFormats : List StrFormat → String → Option Ymd
  | [], _ => none
  | f :: fs, s =>
    match runFormat f s with
    | some dt => some dt
    | none => tryFormats fs s

/-- The string-parsing cascade of `parseDateValue`, transcribed from the
nested `try`/`isNaN` structure of Code.js lines 190-261: `dd-MM-yyyy`, then
`yyyy-MM-dd`, then `dd/MM/yyyy`, then `MM/dd/yyyy`, then the generic
`new Date` parse. -/
def parseDateString (s : String) : Option Ymd :=
  match parseDmyDash s with
  | some dt => some dt
  | none =>
    match parseYmdDash s with
    | some dt => some dt
    | none =>
      match parseDmySlash s with
      | some dt => some dt
      | none =>
        match parseMdySlash s with
        | some dt => some dt
        | none => genericDateParse s

/-- The date normaliser `parseDateValue` of `src/Code.js` (lines 164-276):
a valid native date object is used directly; a positive number is read as a
day-count serial; a non-blank string goes through the format cascade; every
success is re-emitted as canonical `yyyy-MM-dd`, anything else is `null`. -/
def parseDateValue (v : CellValue) : Option String :=
  match v with
  | .dateObj dt => some (formatYmd dt)
  | .num n => if 0 < n then (serialToYmd n).map formatYmd else none
  | .str s => if jsTrim s = "" then none else (parseDateString (jsTrim s)).map formatYmd
  | .blank => none

/-! ## Rows and the pivot aggregator `processAndSortData`

The pipeline hands the aggregator items `{ valueRow, displayRow, ymd }`:
the typed row, the display row (each cell a string, or null/undefined,
modelled as `Option String`), and the normalised date.  Column layout
(0-based): 0 day label, 1 date, 2 centre, 3 attendance count, 4-11 the
remaining detail fields. -/

structure Item where
  valueRow : List CellValue
  displayRow : List (Option String)
  ymd : String
deriving DecidableEq, Repr

/-- The 0-based column indices of the nine pivot-cell detail fields
(`eventDetailColumns` of the source): total sangat, mode, name, arrival,
satsang, saint, book, start time, end time. -/
def eventDetailIdx : List Nat := [3, 4, 5, 6, 7, 8, 9, 10, 11]

/-- The 0-based column indices of the special-event record fields
(`specialEventHeaders` of the source): date, day, centre, then the nine
detail fields. -/
def specialFieldIdx : List Nat := [1, 0, 2, 3, 4, 5, 6, 7, 8, 9, 10, 11]

/-- A display cell: a null, undefined or out-of-range cell becomes the
empty string, any other value is used verbatim. -/
def dispCell (row : List (Option String)) (i : Nat) : String :=
  match row[i]? with
  | some (some s) => s
  | _ => ""

/-- The nine detail fields of a pivot cell, taken from the display row. -/
def eventDetailsOf (row : List (Option String)) : List String :=
  eventDetailIdx.map (dispCell row)

/-- The centre name keying a row: the trimmed display value of column 2 if
truthy, otherwise the `_UnknownCentre_<index>` placeholder. -/
def centreNameOf (it : Item) (idx : Nat) : String :=
  match it.displayRow[2]? with
  | some (some s) => if s = "" then "_UnknownCentre_" ++ toString idx else jsTrim s
  | _ => "_UnknownCentre_" ++ toString idx

/-- Leading decimal digits of a character list, if any. -/
def parseLeadingNat (cs : List Char) : Option Nat :=
  let ds := cs.takeWhile isDigitCh
  if ds.isEmpty then none else some (digitsVal ds)

/-- Model of `parseInt(s, 10)`: leading whitespace, optional sign, then at
least one digit; `NaN` (here `none`) otherwise. -/
def jsParseInt (cs : List Char) : Option Int :=
  match cs.dropWhile isJsWs with
  | '-' :: rest => (parseLeadingNat rest).map (fun p => -(p : Int))
  | '+' :: rest => (parseLeadingNat rest).map (fun p => (p : Int))
  | rest => (parseLeadingNat rest).map (fun p => (p : Int))

/-- `parts[i]` in JavaScript: `undefined` out of range, which stringifies
to `"undefined"` inside a template literal. -/
def partAt (parts : List (List Char)) (i : Nat) : List Char :=
  (parts[i]?).getD ('u' :: 'n' :: 'd' :: 'e' :: 'f' :: 'i' :: 'n' :: 'e' :: 'd' :: [])

/-- Day number of `new Date(y, monthIndex, d)`: the two-digit-year quirk
(0-99 meaning 1900-1999), then month and day roll-over. -/
def jsMakeDateDay (y mIdx d : Int) : Int :=
  let y2 := if 0 ≤ y ∧ y ≤ 99 then y + 1900 else y
  let tm := y2 * 12 + mIdx
  let yy := tm.fdiv 12
  let mm := (tm.emod 12).toNat
  daysFromCivil yy (mm + 1) 1 + (d - 1)

/-- The manual `parts[2]-parts[1]-parts[0]` reversal used as last-resort
pivot key. -/
def reverseKeyFallback (parts : List (List Char)) : String :=
  String.mk (partAt parts 2) ++ "-" ++ String.mk (partAt parts 1) ++ "-" ++ String.mk (partAt parts 0)

/-- The display date key of a row (Code.js lines 446-491): parse the
normalised `yyyy-MM-dd` value and reformat it as `dd-MM-yyyy`; on failure
fall back to `new Date(year, month-1, day)` of the split components, and as
a last resort to textual reversal of the components. -/
def derivePivotKey (ymd : String) : String :=
  match parseYmdDash ymd with
  | some dt => formatDmy dt
  | none =>
    let parts := splitOnCh '-' ymd.data
    match jsParseInt (partAt parts 0), jsParseInt (partAt parts 1), jsParseInt (partAt parts 2) with
    | some y, some m, some d =>
      let dayNum := jsMakeDateDay y (m - 1) d
      if inJsDateRangeDays dayNum then formatDmy (civilFromDays dayNum)
      else reverseKeyFallback parts
    | _, _, _ => reverseKeyFallback parts

/-- Strip the thousands-separator commas (`replace(/,/g, "")`). -/
def stripCommas (s : String) : String :=
  String.mk (s.data.filter (fun c => c ≠ ','))

/-- Unsigned part of `parseFloat`: digits, an optional decimal point and
fraction digits; at least one digit overall.  Trailing garbage is ignored,
exponent suffixes (absent from attendance data) are not modelled. -/
def parseUnsignedFloat (cs : List Char) : Option Rat :=
  let ds := cs.takeWhile isDigitCh
  match cs.drop ds.length with
  | '.' :: rest2 =>
    let fs := rest2.takeWhile isDigitCh
    if ds.isEmpty ∧ fs.isEmpty then none
    else some ((digitsVal ds : Rat) + (digitsVal fs : Rat) / ((10 : Rat) ^ fs.length))
  | _ => if ds.isEmpty then none else some ((digitsVal ds : Rat))

/-- Model of `parseFloat`: leading whitespace, optional sign, then an
unsigned decimal number. -/
def jsParseFloat (s : String) : Option Rat :=
  match s.data.dropWhile isJsWs with
  | '-' :: rest => (parseUnsignedFloat rest).map (fun q => -q)
  | '+' :: rest => parseUnsignedFloat rest
  | rest => parseUnsignedFloat rest

/-- The averaging metric of a row: the underlying (non-display) attendance
cell, a number used directly or a string parsed with commas stripped;
anything non-numeric is `none` (`NaN` in the source). -/
def metricOf (it : Item) : Option Rat :=
  match it.valueRow[3]? with
  | some (CellValue.num n) => some ((n : Rat))
  | some (CellValue.str s) => jsParseFloat (stripCommas s)
  | _ => none

/-- Per-centre accumulator (`processedData[centreName]` of the source). -/
structure CentreAgg where
  dateData : List (String × List String)
  totalSangatSum : Rat
  sangatCount : Nat
deriving DecidableEq, Repr

def emptyAgg : CentreAgg := { dateData := [], totalSangatSum := 0, sangatCount := 0 }

/-- First-match association lookup (JavaScript object property read; keys
are kept in insertion order, as JS does for the string keys used here). -/
def alookup {β : Type} (l : List (String × β)) (k : String) : Option β :=
  (l.find? (fun p => p.1 == k)).map Prod.snd

/-- Replace the value at an existing key (in place), or append a new entry. -/
def upsertA {β : Type} (l : List (String × β)) (k : String) (v : β) : List (String × β) :=
  if (alookup l k).isSome then l.map (fun p => if p.1 == k then (k, v) else p)
  else l ++ [(k, v)]

/-- State of the aggregation pass: `processedData` and `uniqueDateInfo`
(display key, first underlying ISO date), both in insertion order. -/
structure PivotState where
  processedData : List (String × CentreAgg)
  uniqueDateInfo : List (String × String)
deriving DecidableEq, Repr

/-- One iteration of the aggregation loop (Code.js lines 435-530): skip
rows without a normalised date; record the display key's first underlying
ISO date; create the centre's accumulator if missing; and, only for the
first row of a (centre, date key) pair, store the detail cell and fold the
numeric metric into the running sum and count. -/
def stepItem (st : PivotState) (p : Nat × Item) : PivotState :=
  if p.2.ymd = "" then st
  else
    let cname := centreNameOf p.2 p.1
    let dpk := derivePivotKey p.2.ymd
    let udi :=
      if (alookup st.uniqueDateInfo dpk).isSome then st.uniqueDateInfo
      else st.uniqueDateInfo ++ [(dpk, p.2.ymd)]
    let agg := (alookup st.processedData cname).getD emptyAgg
    let pd0 :=
      if (alookup st.processedData cname).isSome then st.processedData
      else st.processedData ++ [(cname, emptyAgg)]
    if (alookup agg.dateData dpk).isSome then { processedData := pd0, uniqueDateInfo := udi }
    else
      let agg2 : CentreAgg :=
        { dateData := agg.dateData ++ [(dpk, eventDetailsOf p.2.displayRow)]
          totalSangatSum := agg.totalSangatSum + (match metricOf p.2 with | some v => v | none => 0)
          sangatCount := agg.sangatCount + (match metricOf p.2 with | some _ => 1 | none => 0) }
      { processedData := upsertA pd0 cname agg2, uniqueDateInfo := udi }

/-- The aggregation pass over a bucket. -/
def runPivot (items : List Item) : PivotState :=
  items.enum.foldl stepItem { processedData := [], uniqueDateInfo := [] }

/-- The date keys sorted by their first-seen underlying ISO date (never by
the display key): the model of
`Object.keys(uniqueDateInfo).sort((a, b) => uniqueDateInfo[a].localeCompare(uniqueDateInfo[b]))`. -/
def sortKeysByYmd (udi : List (String × String)) : List String :=
  (udi.mergeSort (fun p q => strLeB p.2 q.2)).map Prod.fst

/-- The fixed canonical centre ordering (`customCentreOrder`). -/
def customCentreOrder : List String :=
  ["ALWAR", "ALWAR-2", "BEHROR", "BHIWADI", "BHOJRAJKA", "CHIKANI", "DESULA",
   "FATEHPUR", "GOBINDGARH", "GUNTASHAPUR", "HALDEENA", "HAZIPUR", "JHALATALA",
   "KARANA", "KARNIKOT", "KASBA DEHRA", "KAYSA", "KHAIRTHAL", "KISHANGARH BAS",
   "LAXMANGARH", "MUBARIKPUR", "MUNDAWAR", "PAHADI", "PARVENI", "PAWTI",
   "PEPEAL KHERA", "PRATAPGARH", "RAJGARH", "RAMGARH", "RATA KHURD", "SHAHBAD",
   "SHAJHANPUR", "TAPUKARA", "TATARPUR"]

/-- The highlighted ("bold") centres. -/
def boldCentres : List String :=
  ["ALWAR", "ALWAR-2", "RAMGARH", "KHAIRTHAL", "CHIKANI"]

/-- Model of `Number.prototype.toFixed(1)`: round to one decimal place,
half away from zero (exact binary-double tie behaviour is immaterial to the
claims checked here). -/
def toFixed1 (q : Rat) : String :=
  let n : Int := if 0 ≤ q then (q * 10 + 1 / 2).floor else -((-q * 10 + 1 / 2).floor)
  let a := n.natAbs
  (if n < 0 then "-" else "") ++ toString (a / 10) ++ "." ++ toString (a % 10)

/-- A centre's displayed average: sum over count to one decimal, or the
`"N/A"` sentinel when no numeric metric was counted. -/
def avgOf (aggOpt : Option CentreAgg) : String :=
  match aggOpt with
  | some agg =>
    if 0 < agg.sangatCount then toFixed1 (agg.totalSangatSum / (agg.sangatCount : Rat))
    else "N/A"
  | none => "N/A"

/-- One output row of the pivot table. -/
structure OutRow where
  centre : String
  isBold : Bool
  dateData : List (String × List String)
  averageSangat : String
  isMissingData : Bool
deriving DecidableEq, Repr

/-- The missing-data flag of a canonical-order row: set only when the
bucket has at least one date key and the centre lacks a cell for at least
one of them. -/
def missingFlag (aggOpt : Option CentreAgg) (sortedKeys : List String) : Bool :=
  if sortedKeys.isEmpty then false
  else
    match aggOpt with
    | none => true
    | some agg => sortedKeys.any (fun k => (alookup agg.dateData k).isNone)

/-- An output row emitted during the canonical-order pass. -/
def mkCanonRow (sortedKeys : List String) (pd : List (String × CentreAgg)) (c : String) : OutRow :=
  let aggOpt := alookup pd c
  { centre := c, isBold := boldCentres.contains c,
    dateData := (aggOpt.map CentreAgg.dateData).getD [],
    averageSangat := avgOf aggOpt,
    isMissingData := missingFlag aggOpt sortedKeys }

/-- An output row emitted during the second (appended-centres) pass; the
source hard-codes `isMissingData: false` here (Code.js line 609). -/
def mkExtraRow (pd : List (String × CentreAgg)) (c : String) : OutRow :=
  let aggOpt := alookup pd c
  { centre := c, isBold := boldCentres.contains c,
    dateData := (aggOpt.map CentreAgg.dateData).getD [],
    averageSangat := avgOf aggOpt,
    isMissingData := false }

/-- The two-stage construction of the output row list (Code.js lines
544-612): for the Sunday bucket one row per canonical centre in canonical
order, then all remaining data centres sorted alphabetically; for the
non-Sunday bucket only the alphabetical pass. -/
def buildRows (isSundayData : Bool) (pd : List (String × CentreAgg))
    (sortedKeys : List String) : List OutRow :=
  let canonical := if isSundayData then customCentreOrder.map (mkCanonRow sortedKeys pd) else []
  let added := if isSundayData then customCentreOrder else ([] : List String)
  let extras := (((pd.map Prod.fst).mergeSort strLeB).filter
      (fun c => ! added.contains c)).map (mkExtraRow pd)
  canonical ++ extras

/-- The pivot result: the ordered row list and the chronologically sorted
display date keys. -/
structure PivotResult where
  templateData : List OutRow
  sortedDates : List String
deriving DecidableEq, Repr

/-- The pivot aggregator `processAndSortData` of `src/Code.js` (lines
419-618).  The `selectedMonth` parameter of the source is used only in log
messages and is omitted.  An empty non-Sunday bucket returns the empty
result immediately; an empty Sunday bucket still enumerates the canonical
centres. -/
def processAndSortData (items : List Item) (isSundayData : Bool) : PivotResult :=
  if items.isEmpty ∧ isSundayData = false then { templateData := [], sortedDates := [] }
  else
    let st := runPivot items
    let sortedKeys := sortKeysByYmd st.uniqueDateInfo
    { templateData := buildRows isSundayData st.processedData sortedKeys
      sortedDates := sortedKeys }

/-! ## The special-event list builder `processSpecialSatsangList` -/

/-- A flat special-event record: the display fields in
`specialFieldIdx` order, plus the internal sort key `ymdForSort`. -/
structure SpecialEvent where
  ymdForSort : String
  fields : List String
deriving DecidableEq, Repr

/-- Map one row to its flat record (display values, null/undefined becoming
the empty string). -/
def toEvent (it : Item) : SpecialEvent :=
  { ymdForSort := it.ymd, fields := specialFieldIdx.map (dispCell it.displayRow) }

/-- The sort comparator of the source, as a boolean `le`: a pair involving
a missing sort key compares as 0 (so `le` holds both ways), otherwise the
ISO date strings are compared. -/
def specialCmpLe (a b : SpecialEvent) : Bool :=
  if a.ymdForSort = "" ∨ b.ymdForSort = "" then true
  else strLeB a.ymdForSort b.ymdForSort

/-- The special-event list builder `processSpecialSatsangList` of
`src/Code.js` (lines 625-656): map each row to a flat record, then sort by
`ymdForSort` (with `Array.prototype.sort` modelled as a stable merge
sort). -/
def processSpecialSatsangList (items : List Item) : List SpecialEvent :=
  (items.map toEvent).mergeSort specialCmpLe

/-! ## Reference functions used to state the checked properties -/

/-- Strict chronological order of two `dd-MM-yyyy` display keys by the
calendar dates they denote. -/
def keyYmdLt (a b : String) : Prop :=
  match parseDmyDash a, parseDmyDash b with
  | some u, some v => ymdLt u v
  | _, _ => False

/-- The projection of one indexed row as the aggregation loop sees it:
centre key, display date key, numeric metric and detail cell. -/
structure ProjRow where
  centre : String
  key : String
  metric : Option Rat
  det : List String
deriving DecidableEq, Repr

/-- Rows without a normalised date are skipped; the rest are projected. -/
def projOf (p : Nat × Item) : Option ProjRow :=
  if p.2.ymd = "" then none
  else
    some { centre := centreNameOf p.2 p.1, key := derivePivotKey p.2.ymd,
           metric := metricOf p.2, det := eventDetailsOf p.2.displayRow }

/-- All projected rows of a bucket, in order. -/
def projRows (items : List Item) : List ProjRow :=
  items.enum.filterMap projOf

/-- The projected rows of one centre, in order. -/
def centreProj (items : List Item) (c : String) : List ProjRow :=
  (projRows items).filter (fun r => r.centre == c)

/-- The distinct date keys of a row list, first occurrence first. -/
def dedupKeys : List ProjRow → List String
  | [] => []
  | r :: rest => r.key :: dedupKeys (rest.filter (fun q => q.key != r.key))
termination_by l => l.length
decreasing_by
  exact Nat.lt_succ_of_le (rest.length_filter_le _)

/-- The pivot cell of each distinct date key: the detail fields of the
first row seen for it. -/
def firstCells : List ProjRow → List (String × List String)
  | [] => []
  | r :: rest => (r.key, r.det) :: firstCells (rest.filter (fun q => q.key != r.key))
termination_by l => l.length
decreasing_by
  exact Nat.lt_succ_of_le (rest.length_filter_le _)

/-- Sum of the metrics of the first row of each distinct date key
(non-numeric metrics contributing nothing). -/
def sumSpec : List ProjRow → Rat
  | [] => 0
  | r :: rest =>
    (match r.metric with | some v => v | none => 0) + sumSpec (rest.filter (fun q => q.key != r.key))
termination_by l => l.length
decreasing_by
  exact Nat.lt_succ_of_le (rest.length_filter_le _)

/-- Number of distinct date keys whose first row has a numeric metric. -/
def countSpec : List ProjRow → Nat
  | [] => 0
  | r :: rest =>
    (match r.metric with | some _ => 1 | none => 0) + countSpec (rest.filter (fun q => q.key != r.key))
termination_by l => l.length
decreasing_by
  exact Nat.lt_succ_of_le (rest.length_filter_le _)

/-- The number of distinct (centre, date key) pairs of centre `c` whose
first row carries a numeric metric, phrased by direct search: among the
distinct date keys of `c`, those whose first row has a numeric value. -/
def numericFirstKeyCount (rows : List ProjRow) : Nat :=
  ((dedupKeys rows).filter
    (fun k => ((rows.find? (fun r => r.key == k)).map (fun r => r.metric.isSome)).getD false)).length

/-- Every detail field of every pivot cell of a result. -/
def pivotCellFields (res : PivotResult) : List String :=
  res.templateData.flatMap (fun r => r.dateData.flatMap Prod.snd)

/-- Every field of every special-event record. -/
def specialFields (evs : List SpecialEvent) : List String :=
  evs.flatMap SpecialEvent.fields

/-! Concrete example rows used by witnesses and counterexamples. -/

/-- A display row with the standard column layout. -/
def exRow (day date centre sangat : String) : List (Option String) :=
  [some day, some date, some centre, some sangat, some "Mode", some "Name",
   some "Arr", some "Sat", some "Saint", some "Book", some "Start", some "End"]

/-- An example item with the given normalised date, centre and metric. -/
def exItem (ymd day date centre sangat : String) (v : CellValue) : Item :=
  { valueRow := [CellValue.str day, CellValue.str date, CellValue.str centre, v]
    displayRow := exRow day date centre sangat
    ymd := ymd }

/-- C3 counterexample bucket: the non-canonical centre `ZED` has a cell for
3 March only, while 10 March also occurs (at a canonical centre). -/
def exC3Items : List Item :=
  [exItem "2024-03-03" "Sunday" "03-03-2024" "ZED" "5" (CellValue.num 5),
   exItem "2024-03-10" "Sunday" "10-03-2024" "ALWAR" "100" (CellValue.num 100)]

/-- C6 witness bucket: two canonical dates across a year boundary, in
reverse chronological input order. -/
def exC6Items : List Item :=
  [exItem "2024-01-02" "Sunday" "02-01-2024" "ALWAR" "80" (CellValue.num 80),
   exItem "2023-12-30" "Sunday" "30-12-2023" "ALWAR" "90" (CellValue.num 90)]

/-- C7 witness bucket: a duplicate (centre, date) row and a non-numeric
metric row for the same centre. -/
def exC7Items : List Item :=
  [exItem "2024-03-03" "Sunday" "03-03-2024" "ALWAR" "100" (CellValue.num 100),
   exItem "2024-03-03" "Sunday" "03-03-2024" "ALWAR" "999" (CellValue.num 999),
   exItem "2024-03-10" "Sunday" "10-03-2024" "ALWAR" "" (CellValue.str "")]

/-- C9 counterexample rows: a missing sort key between two out-of-order
dated rows. -/
def exC9Items : List Item :=
  [exItem "2024-03-10" "Special" "10-03-2024" "CEN" "5" (CellValue.num 5),
   exItem "" "Special" "" "CEN" "6" (CellValue.num 6),
   exItem "2024-03-01" "Special" "01-03-2024" "CEN" "7" (CellValue.num 7)]

/-- C9 witness rows: all sort keys present, two of them equal. -/
def exC9WItems : List Item :=
  [exItem "2024-03-10" "Special" "10-03-2024" "CEN" "5" (CellValue.num 5),
   exItem "2024-03-01" "Special" "01-03-2024" "CENB" "6" (CellValue.num 6),
   exItem "2024-03-01" "Special" "01-03-2024" "CENA" "7" (CellValue.num 7)]

/-- C10 witness bucket: a display row with a null detail cell. -/
def exC10Items : List Item :=
  [{ valueRow := [CellValue.str "Sunday", CellValue.str "03-03-2024", CellValue.str "ALWAR", CellValue.num 5]
     displayRow := [some "Sunday", some "03-03-2024", some "ALWAR", none, some "Mode"]
     ymd := "2024-03-03" }]

/-- C7 witness centre. -/
def exC7Centre : String := "ALWAR"

/-- The accumulator the aggregation pass produces for the C7 witness
bucket: the duplicate 03-03 row is ignored, the 10-03 row stores its cell
but its blank metric is excluded from sum and count. -/
def exC7Agg : CentreAgg :=
  { dateData :=
      [("03-03-2024", ["100", "Mode", "Name", "Arr", "Sat", "Saint", "Book", "Start", "End"]),
       ("10-03-2024", ["", "Mode", "Name", "Arr", "Sat", "Saint", "Book", "Start", "End"])]
    totalSangatSum := 100
    sangatCount := 1 }

/-- A string is the canonical rendering of some valid in-range date. -/
def canonicalYmdStr (s : String) : Prop :=
  ∃ dt, validYmd dt ∧ 0 ≤ dt.year ∧ dt.year < 10000 ∧ s = formatYmd dt

/-- The update a first-seen (centre, date key) row makes to its centre's
accumulator: store the cell, and fold a numeric metric into sum and count. -/
def aggStep (agg : CentreAgg) (r : ProjRow) : CentreAgg :=
  { dateData := agg.dateData ++ [(r.key, r.det)]
    totalSangatSum := agg.totalSangatSum + (match r.metric with | some v => v | none => 0)
    sangatCount := agg.sangatCount + (match r.metric with | some _ => 1 | none => 0) }

/-- Folding a centre's projected rows into its (optional) accumulator,
mirroring one centre's view of the aggregation loop. -/
def centreContinue : List ProjRow → Option CentreAgg → Option CentreAgg
  | [], acc => acc
  | r :: rest, acc =>
    let agg := acc.getD emptyAgg
    if (alookup agg.dateData r.key).isSome then centreContinue rest (some agg)
    else centreContinue rest (some (aggStep agg r))

/-! ## Order and roundtrip lemmas for canonical date strings -/

theorem toNat_digitChar (n : Nat) : (digitChar n).toNat = 48 + n % 10 := by
  have h : n % 10 < 10 := Nat.mod_lt _ (by omega)
  have hv : Nat.isValidChar (48 + n % 10) := Or.inl (by omega)
  simp [digitChar, Char.ofNat, hv, Char.toNat, Char.ofNatAux, UInt32.ofNat', UInt32.toNat]

theorem charVal_digitChar (n : Nat) : charVal (digitChar n) = n % 10 := by
  simp [charVal, toNat_digitChar]

theorem isDigitCh_digitChar (n : Nat) : isDigitCh (digitChar n) = true := by
  have h : n % 10 < 10 := Nat.mod_lt _ (by omega)
  have := toNat_digitChar n
  simp only [isDigitCh, this]
  simp only [Bool.and_eq_true, decide_eq_true_eq]
  omega

theorem digitChar_ne_hyphen (n : Nat) : digitChar n ≠ '-' := by
  intro h
  have h2 := congrArg Char.toNat h
  rw [toNat_digitChar] at h2
  have h3 : ('-').toNat = 45 := rfl
  rw [h3] at h2
  omega

theorem digitChar_ne_slash (n : Nat) : digitChar n ≠ '/' := by
  intro h
  have h2 := congrArg Char.toNat h
  rw [toNat_digitChar] at h2
  have h3 : ('/').toNat = 47 := rfl
  rw [h3] at h2
  omega

theorem val2_pad2 (n : Nat) (h : n < 100) :
    val2 (digitChar (n / 10)) (digitChar n) = n := by
  simp [val2, charVal_digitChar]
  omega

theorem val4_pad4 (n : Nat) (h : n < 10000) :
    val4 (digitChar (n / 1000)) (digitChar (n / 100)) (digitChar (n / 10)) (digitChar n) = n := by
  simp [val4, charVal_digitChar]
  omega

theorem char_lt_iff_toNat {c d : Char} : c < d ↔ c.toNat < d.toNat :=
  Char.lt_iff_val_lt_val

theorem char_eq_iff_toNat {c d : Char} : c = d ↔ c.toNat = d.toNat := by
  constructor
  · intro h; rw [h]
  · intro h
    apply Char.eq_of_val_eq
    apply UInt32.eq_of_toBitVec_eq
    apply BitVec.eq_of_toNat_eq
    simpa [Char.toNat, UInt32.toNat] using h

theorem digitChar_lt_iff {a b : Nat} : digitChar a < digitChar b ↔ a % 10 < b % 10 := by
  rw [char_lt_iff_toNat, toNat_digitChar, toNat_digitChar]
  omega

theorem digitChar_eq_iff {a b : Nat} : digitChar a = digitChar b ↔ a % 10 = b % 10 := by
  rw [char_eq_iff_toNat, toNat_digitChar, toNat_digitChar]
  omega

/-- Lex inversion on cons cells for the strict character order. -/
theorem lex_cons_iff {a b : Char} {as bs : List Char} :
    List.Lex (· < ·) (a :: as) (b :: bs) ↔ a < b ∨ (a = b ∧ List.Lex (· < ·) as bs) := by
  constructor
  · intro h
    cases h with
    | rel h => exact Or.inl h
    | cons h => exact Or.inr ⟨rfl, h⟩
  · intro h
    rcases h with h | ⟨rfl, h⟩
    · exact List.Lex.rel h
    · exact List.Lex.cons h

theorem lex_append_same {l r1 r2 : List Char} (h : List.Lex (· < ·) r1 r2) :
    List.Lex (· < ·) (l ++ r1) (l ++ r2) := by
  induction l with
  | nil => simpa using h
  | cons c cs ih => exact List.Lex.cons ih

/-- Strict monotonicity of four zero-padded digits (with arbitrary equal or
distinct tails). -/
theorem lex_pad4_lt {x y : Nat} (hx : x < 10000) (hy : y < 10000) (h : x < y)
    (r1 r2 : List Char) :
    List.Lex (· < ·) (pad4 x ++ r1) (pad4 y ++ r2) := by
  simp only [pad4, List.cons_append, List.nil_append]
  by_cases h1 : x / 1000 = y / 1000
  · apply lex_cons_iff.mpr
    refine Or.inr ⟨digitChar_eq_iff.mpr (by omega), ?_⟩
    by_cases h2 : x / 100 % 10 = y / 100 % 10
    · apply lex_cons_iff.mpr
      refine Or.inr ⟨digitChar_eq_iff.mpr (by omega), ?_⟩
      by_cases h3 : x / 10 % 10 = y / 10 % 10
      · apply lex_cons_iff.mpr
        refine Or.inr ⟨digitChar_eq_iff.mpr (by omega), ?_⟩
        exact List.Lex.rel (digitChar_lt_iff.mpr (by omega))
      · apply lex_cons_iff.mpr
        exact Or.inl (digitChar_lt_iff.mpr (by omega))
    · apply lex_cons_iff.mpr
      exact Or.inl (digitChar_lt_iff.mpr (by omega))
  · apply lex_cons_iff.mpr
    exact Or.inl (digitChar_lt_iff.mpr (by omega))

/-- Strict monotonicity of two zero-padded digits. -/
theorem lex_pad2_lt {x y : Nat} (hx : x < 100) (hy : y < 100) (h : x < y)
    (r1 r2 : List Char) :
    List.Lex (· < ·) (pad2 x ++ r1) (pad2 y ++ r2) := by
  simp only [pad2, List.cons_append, List.nil_append]
  by_cases h1 : x / 10 % 10 = y / 10 % 10
  · apply lex_cons_iff.mpr
    refine Or.inr ⟨digitChar_eq_iff.mpr (by omega), ?_⟩
    exact List.Lex.rel (digitChar_lt_iff.mpr (by omega))
  · apply lex_cons_iff.mpr
    exact Or.inl (digitChar_lt_iff.mpr (by omega))

/-- The character data of an in-range `formatYmd`. -/
theorem formatYmd_data {dt : Ymd} (h0 : 0 ≤ dt.year) (h1 : dt.year < 10000) :
    (formatYmd dt).data = pad4 dt.year.toNat ++ '-' :: (pad2 dt.month ++ '-' :: pad2 dt.day) := by
  rw [formatYmd, if_pos ⟨h0, h1⟩]

/-- The character data of an in-range `formatDmy`. -/
theorem formatDmy_data {dt : Ymd} (h0 : 0 ≤ dt.year) (h1 : dt.year < 10000) :
    (formatDmy dt).data = pad2 dt.day ++ '-' :: (pad2 dt.month ++ '-' :: pad4 dt.year.toNat) := by
  rw [formatDmy, if_pos ⟨h0, h1⟩]

/-- Bounds on the fields of a valid date. -/
theorem validYmd_bounds {dt : Ymd} (h : validYmd dt) : dt.month < 100 ∧ dt.day < 100 := by
  obtain ⟨h1, h2, h3, h4⟩ := h
  have : daysInMonth dt.year dt.month ≤ 31 := by
    unfold daysInMonth
    split <;> [split <;> omega; split <;> omega]
  omega

/-- `formatYmd` is strictly monotone on valid in-range dates. -/
theorem formatYmd_lt_of_ymdLt {a b : Ymd} (ha : validYmd a) (hb : validYmd b)
    (ha0 : 0 ≤ a.year) (ha1 : a.year < 10000) (hb0 : 0 ≤ b.year) (hb1 : b.year < 10000)
    (h : ymdLt a b) : formatYmd a < formatYmd b := by
  have hma := (validYmd_bounds ha).1
  have hda := (validYmd_bounds ha).2
  have hmb := (validYmd_bounds hb).1
  have hdb := (validYmd_bounds hb).2
  rw [String.lt_iff_toList_lt]
  show List.Lex (· < ·) (formatYmd a).data (formatYmd b).data
  rw [formatYmd_data ha0 ha1, formatYmd_data hb0 hb1]
  rcases h with h | ⟨hy, h | ⟨hm, h⟩⟩
  · exact lex_pad4_lt (by omega) (by omega) (by omega) _ _
  · rw [show a.year.toNat = b.year.toNat by omega]
    apply lex_append_same
    apply List.Lex.cons
    exact lex_pad2_lt (by omega) (by omega) (by omega) _ _
  · rw [show a.year.toNat = b.year.toNat by omega, hm]
    apply lex_append_same
    apply List.Lex.cons
    apply lex_append_same
    apply List.Lex.cons
    exact lex_pad2_lt (by omega) (by omega) (by omega) _ _

/-- Date trichotomy. -/
theorem ymd_eq_of_not_lt {a b : Ymd} (h1 : ¬ ymdLt a b) (h2 : ¬ ymdLt b a) : a = b := by
  cases a; cases b
  simp only [ymdLt, not_or, not_and, not_lt] at h1 h2
  simp only [Ymd.mk.injEq]
  omega

/-- Chronological strict order from the string order, on canonical
renderings of valid in-range dates. -/
theorem ymdLt_of_formatYmd_le {a b : Ymd} (ha : validYmd a) (hb : validYmd b)
    (ha0 : 0 ≤ a.year) (ha1 : a.year < 10000) (hb0 : 0 ≤ b.year) (hb1 : b.year < 10000)
    (hle : formatYmd a ≤ formatYmd b) (hne : formatYmd a ≠ formatYmd b) : ymdLt a b := by
  by_cases h : ymdLt a b
  · exact h
  by_cases h' : ymdLt b a
  · exact absurd (formatYmd_lt_of_ymdLt hb ha hb0 hb1 ha0 ha1 h') (not_lt.mpr hle)
  · exact absurd (congrArg formatYmd (ymd_eq_of_not_lt h h')) hne

theorem dropWhile_eq_self_of_not {p : Char → Bool} {l : List Char}
    (h : ∀ c ∈ l, p c = false) : l.dropWhile p = l := by
  cases l with
  | nil => rfl
  | cons c cs =>
    rw [List.dropWhile_cons, if_neg]
    simp [h c (List.mem_cons_self c cs)]

theorem jsTrim_eq_self {s : String} (h : ∀ c ∈ s.data, isJsWs c = false) : jsTrim s = s := by
  have h2 : ∀ c ∈ s.data.reverse, isJsWs c = false := by
    intro c hc
    exact h c (List.mem_reverse.mp hc)
  rw [jsTrim, dropWhile_eq_self_of_not h, dropWhile_eq_self_of_not h2, List.reverse_reverse]

theorem digitChar_ne_of_lt {n : Nat} {c : Char} (hc : c.toNat < 48) : digitChar n ≠ c := by
  intro h
  have h2 := congrArg Char.toNat h
  rw [toNat_digitChar] at h2
  omega

theorem digitChar_not_ws (n : Nat) : isJsWs (digitChar n) = false := by
  simp only [isJsWs, Bool.or_eq_false_iff, decide_eq_false_iff_not]
  exact ⟨⟨⟨digitChar_ne_of_lt (by decide), digitChar_ne_of_lt (by decide)⟩,
    digitChar_ne_of_lt (by decide)⟩, digitChar_ne_of_lt (by decide)⟩

theorem hyphen_not_ws : isJsWs '-' = false := by decide

theorem pad4_not_ws (x : Nat) : ∀ c ∈ pad4 x, isJsWs c = false := by
  intro c hc
  simp only [pad4, List.mem_cons, List.not_mem_nil, or_false] at hc
  rcases hc with rfl | rfl | rfl | rfl <;> exact digitChar_not_ws _

theorem pad2_not_ws (x : Nat) : ∀ c ∈ pad2 x, isJsWs c = false := by
  intro c hc
  simp only [pad2, List.mem_cons, List.not_mem_nil, or_false] at hc
  rcases hc with rfl | rfl <;> exact digitChar_not_ws _

theorem mem_formatYmd_data {dt : Ymd} (h0 : 0 ≤ dt.year) (h1 : dt.year < 10000)
    {c : Char} (hc : c ∈ (formatYmd dt).data) : isJsWs c = false := by
  rw [formatYmd_data h0 h1] at hc
  rcases List.mem_append.mp hc with h | h
  · exact pad4_not_ws _ _ h
  · rcases List.mem_cons.mp h with rfl | h
    · exact hyphen_not_ws
    · rcases List.mem_append.mp h with h | h
      · exact pad2_not_ws _ _ h
      · rcases List.mem_cons.mp h with rfl | h
        · exact hyphen_not_ws
        · exact pad2_not_ws _ _ h

theorem formatYmd_ne_empty {dt : Ymd} (h0 : 0 ≤ dt.year) (h1 : dt.year < 10000) :
    formatYmd dt ≠ "" := by
  intro h
  have := congrArg String.data h
  rw [formatYmd_data h0 h1] at this
  simp [pad4] at this

/-- Strict parsing inverts canonical formatting. -/
theorem parseYmdDash_formatYmd {dt : Ymd} (hv : validYmd dt)
    (h0 : 0 ≤ dt.year) (h1 : dt.year < 10000) :
    parseYmdDash (formatYmd dt) = some dt := by
  have hm := (validYmd_bounds hv).1
  have hd := (validYmd_bounds hv).2
  have hy : dt.year.toNat < 10000 := by omega
  simp only [parseYmdDash, formatYmd_data h0 h1, pad4, pad2,
    List.cons_append, List.nil_append]
  rw [if_pos (by simp [isDigitCh_digitChar])]
  have e1 : val4 (digitChar (dt.year.toNat / 1000)) (digitChar (dt.year.toNat / 100))
      (digitChar (dt.year.toNat / 10)) (digitChar dt.year.toNat) = dt.year.toNat :=
    val4_pad4 _ hy
  have e2 : val2 (digitChar (dt.month / 10)) (digitChar dt.month) = dt.month :=
    val2_pad2 _ hm
  have e3 : val2 (digitChar (dt.day / 10)) (digitChar dt.day) = dt.day :=
    val2_pad2 _ hd
  rw [e1, e2, e3, Int.toNat_of_nonneg h0]
  exact if_pos hv

/-- The `dd-MM-yyyy` attempt fails on every canonical `yyyy-MM-dd`
rendering: the character at position 2 is a digit, not a hyphen. -/
theorem parseDmyDash_formatYmd {dt : Ymd} (h0 : 0 ≤ dt.year) (h1 : dt.year < 10000) :
    parseDmyDash (formatYmd dt) = none := by
  simp only [parseDmyDash, formatYmd_data h0 h1, pad4, pad2,
    List.cons_append, List.nil_append]
  rw [if_neg]
  intro hcon
  exact digitChar_ne_hyphen _ hcon.1

/-- Strict `dd-MM-yyyy` parsing inverts display-key formatting. -/
theorem parseDmyDash_formatDmy {dt : Ymd} (hv : validYmd dt)
    (h0 : 0 ≤ dt.year) (h1 : dt.year < 10000) :
    parseDmyDash (formatDmy dt) = some dt := by
  have hm := (validYmd_bounds hv).1
  have hd := (validYmd_bounds hv).2
  have hy : dt.year.toNat < 10000 := by omega
  simp only [parseDmyDash, formatDmy_data h0 h1, pad4, pad2,
    List.cons_append, List.nil_append]
  rw [if_pos (by simp [isDigitCh_digitChar])]
  have e1 : val4 (digitChar (dt.year.toNat / 1000)) (digitChar (dt.year.toNat / 100))
      (digitChar (dt.year.toNat / 10)) (digitChar dt.year.toNat) = dt.year.toNat :=
    val4_pad4 _ hy
  have e2 : val2 (digitChar (dt.month / 10)) (digitChar dt.month) = dt.month :=
    val2_pad2 _ hm
  have e3 : val2 (digitChar (dt.day / 10)) (digitChar dt.day) = dt.day :=
    val2_pad2 _ hd
  rw [e1, e2, e3, Int.toNat_of_nonneg h0]
  exact if_pos hv

/-- The pivot key of a canonically rendered date is its `dd-MM-yyyy`
display rendering. -/
theorem derivePivotKey_formatYmd {dt : Ymd} (hv : validYmd dt)
    (h0 : 0 ≤ dt.year) (h1 : dt.year < 10000) :
    derivePivotKey (formatYmd dt) = formatDmy dt := by
  simp only [derivePivotKey, parseYmdDash_formatYmd hv h0 h1]

/-! ## Claims about the date normaliser -/

/-- C2: for every valid calendar date in canonical `yyyy-MM-dd` form, the
date normaliser is the identity: the string is trimmed (unchanged), the
`dd-MM-yyyy` attempt fails on its shape, the `yyyy-MM-dd` attempt parses it
exactly, and re-formatting returns the same string. -/
theorem parseDateValue_canonical_id (dt : Ymd) (hv : validYmd dt)
    (h0 : 0 ≤ dt.year) (h1 : dt.year < 10000) :
    parseDateValue (CellValue.str (formatYmd dt)) = some (formatYmd dt) := by
  have ht : jsTrim (formatYmd dt) = formatYmd dt :=
    jsTrim_eq_self (fun c hc => mem_formatYmd_data h0 h1 hc)
  simp only [parseDateValue, ht, if_neg (formatYmd_ne_empty h0 h1), parseDateString,
    parseDmyDash_formatYmd h0 h1, parseYmdDash_formatYmd hv h0 h1, Option.map_some']

/-- C2 witness: the canonical string `2024-03-05` normalises to itself. -/
theorem parseDateValue_canonical_id_witness :
    validYmd { year := 2024, month := 3, day := 5 } ∧
      parseDateValue (CellValue.str "2024-03-05") = some "2024-03-05" := by
  refine ⟨by decide, ?_⟩
  have h := parseDateValue_canonical_id { year := 2024, month := 3, day := 5 }
    (by decide) (by decide) (by decide)
  have he : formatYmd { year := 2024, month := 3, day := 5 } = "2024-03-05" := by decide
  rwa [he] at h

/-- C5: the string `31/02/2024` names no valid calendar date; every format
attempt of the normaliser fails on it - including the `dd/MM/yyyy` attempt,
which is not rolled over to 2024-03-02 - and the generic fallback fails
too, so the normaliser returns `null` and the row is excluded. -/
theorem parseDateValue_rejects_31_02_2024 :
    parseDmyDash "31/02/2024" = none ∧
    parseYmdDash "31/02/2024" = none ∧
    parseDmySlash "31/02/2024" = none ∧
    parseMdySlash "31/02/2024" = none ∧
    genericDateParse "31/02/2024" = none ∧
    parseDateValue (CellValue.str "31/02/2024") = none := by
  refine ⟨?_, ?_, ?_, ?_, ?_, ?_⟩ <;> decide

/-- C1 counterexample: the attempt order of `parseDateValue` in the source
is not the order the specification claims: the source tries `dd-MM-yyyy`
first, `yyyy-MM-dd` only second. -/
theorem stringFormatOrder_ne_spec :
    codeStringFormatOrder ≠ specClaimedFormatOrder ∧
    codeStringFormatOrder.head? = some StrFormat.dmyDash ∧
    specClaimedFormatOrder.head? = some StrFormat.ymdDash := by
  exact ⟨by decide, rfl, rfl⟩

/-- C1 amended: on string input the normaliser attempts the formats in the
order `dd-MM-yyyy`, `yyyy-MM-dd`, `dd/MM/yyyy`, `MM/dd/yyyy`, then the
generic parse; the first attempt that yields a valid date determines the
result. -/
theorem parseDateString_eq_tryFormats (s : String) :
    parseDateString s =
      (match tryFormats codeStringFormatOrder s with
       | some dt => some dt
       | none => genericDateParse s) := by
  simp only [parseDateString, codeStringFormatOrder, tryFormats, runFormat]
  cases parseDmyDash s <;> cases parseYmdDash s <;>
    cases parseDmySlash s <;> cases parseMdySlash s <;> simp

/-- C4 counterexample: the serial-number branch accepts day-count 1, which
resolves to 1899-12-31 - a year before 1900 - instead of rejecting it. -/
theorem serialOne_accepted :
    parseDateValue (CellValue.num 1) = some "1899-12-31" ∧
    (civilFromDays (excelEpochDay + 1)).year = 1899 ∧
    (civilFromDays (excelEpochDay + 1)).year < 1900 := by
  refine ⟨?_, ?_, ?_⟩ <;> decide

/-- C4 amended: the serial branch of the source has no plausible-year
check: every positive day-count within the JavaScript date range is
accepted and resolved against the 1899-12-30 epoch, whatever year results. -/
theorem parseDateValue_serial_unchecked (n : Int) (h1 : 0 < n)
    (h2 : inJsDateRangeDays (excelEpochDay + n) = true) :
    parseDateValue (CellValue.num n) = some (formatYmd (civilFromDays (excelEpochDay + n))) := by
  simp [parseDateValue, h1, serialToYmd, h2]

/-- C4 amended witness: day-count 100000 resolves to 2173-10-14 - a year
after 2100 - and is accepted. -/
theorem parseDateValue_serial_unchecked_witness :
    (0 : Int) < 100000 ∧ inJsDateRangeDays (excelEpochDay + 100000) = true ∧
    parseDateValue (CellValue.num 100000) = some (formatYmd (civilFromDays (excelEpochDay + 100000))) ∧
    (civilFromDays (excelEpochDay + 100000)).year = 2173 := by
  refine ⟨by decide, by decide, ?_, by decide⟩
  exact parseDateValue_serial_unchecked 100000 (by decide) (by decide)

/-! ## Small-list evaluation lemmas for the stable sort -/

theorem mergeSort_pair {α : Type} (le : α → α → Bool) (a b : α) :
    [a, b].mergeSort le = if le a b then [a, b] else [b, a] := by
  rw [List.mergeSort]
  simp [List.splitInTwo, List.merge]

theorem mergeSort_triple {α : Type} (le : α → α → Bool) (a b c : α) :
    [a, b, c].mergeSort le = List.merge (if le a b then [a, b] else [b, a]) [c] le := by
  rw [List.mergeSort]
  simp [List.splitInTwo]
  rw [mergeSort_pair]

/-! ## C8: the two weekday buckets on empty input -/

/-- C8: on an empty bucket the two weekday variants differ: the Sunday
variant still emits one row per canonical centre, each not missing, with
average `"N/A"` and no cells, while the non-Sunday variant returns empty
`templateData` and empty `sortedDates`. -/
theorem processAndSortData_empty_buckets :
    processAndSortData [] true =
      { templateData := customCentreOrder.map (fun c =>
          { centre := c, isBold := boldCentres.contains c, dateData := [],
            averageSangat := "N/A", isMissingData := false })
        sortedDates := [] } ∧
    processAndSortData [] false = { templateData := [], sortedDates := [] } := by
  constructor
  · simp [processAndSortData, runPivot, sortKeysByYmd, buildRows, mkCanonRow, alookup,
      avgOf, missingFlag]
  · simp [processAndSortData]

/-! ## The boolean string order agrees with the mathematical one -/

theorem charLtB_iff {a b : Char} : charLtB a b = true ↔ a < b := by
  rw [char_lt_iff_toNat]
  simp [charLtB]

theorem charLtB_self (a : Char) : charLtB a a = false := by
  simp [charLtB]

theorem listLtB_iff_lex : ∀ {as bs : List Char},
    listLtB as bs = true ↔ List.Lex (· < ·) as bs := by
  intro as
  induction as with
  | nil =>
    intro bs
    cases bs with
    | nil => simp [listLtB]
    | cons b bs => simpa [listLtB] using List.Lex.nil
  | cons a as ih =>
    intro bs
    cases bs with
    | nil =>
      simp only [listLtB, Bool.false_eq_true, false_iff]
      intro h
      cases h
    | cons b bs =>
      simp only [listLtB]
      rcases Nat.lt_trichotomy a.toNat b.toNat with h | h | h
      · rw [if_pos (by simp [charLtB]; omega)]
        simp only [true_iff]
        exact List.Lex.rel (char_lt_iff_toNat.mpr h)
      · have hab : a = b := char_eq_iff_toNat.mpr h
        rw [if_neg (by simp [charLtB]; omega), if_neg (by simp [charLtB]; omega)]
        rw [ih, hab, lex_cons_iff]
        constructor
        · intro hx; exact Or.inr ⟨rfl, hx⟩
        · intro hx
          rcases hx with hx | ⟨_, hx⟩
          · exact absurd hx (lt_irrefl b)
          · exact hx
      · rw [if_neg (by simp [charLtB]; omega), if_pos (by simp [charLtB]; omega)]
        simp only [Bool.false_eq_true, false_iff]
        intro hx
        rw [lex_cons_iff] at hx
        rcases hx with hx | ⟨hx, _⟩
        · exact absurd (char_lt_iff_toNat.mp hx) (by omega)
        · rw [hx] at h; omega

theorem strLtB_iff {a b : String} : strLtB a b = true ↔ a < b := by
  rw [String.lt_iff_toList_lt]
  exact listLtB_iff_lex

/-! ## C9: the special-event list builder -/

theorem strLeB_iff {a b : String} : strLeB a b = true ↔ a ≤ b := by
  simp only [strLeB, Bool.not_eq_true', ← Bool.not_eq_true, strLtB_iff]
  exact not_lt

theorem strLeB_trans {a b c : String} (hab : strLeB a b = true) (hbc : strLeB b c = true) :
    strLeB a c = true :=
  strLeB_iff.mpr (le_trans (strLeB_iff.mp hab) (strLeB_iff.mp hbc))

theorem strLeB_total (a b : String) : (strLeB a b || strLeB b a) = true := by
  rcases le_total a b with h | h <;> simp [strLeB_iff.mpr h]

theorem plainEvLe_trans :
    ∀ a b c : SpecialEvent,
      (fun x y : SpecialEvent => strLeB x.ymdForSort y.ymdForSort) a b →
      (fun x y : SpecialEvent => strLeB x.ymdForSort y.ymdForSort) b c →
      (fun x y : SpecialEvent => strLeB x.ymdForSort y.ymdForSort) a c := by
  intro a b c hab hbc
  exact strLeB_trans hab hbc

theorem plainEvLe_total :
    ∀ a b : SpecialEvent,
      ((fun x y : SpecialEvent => strLeB x.ymdForSort y.ymdForSort) a b ||
       (fun x y : SpecialEvent => strLeB x.ymdForSort y.ymdForSort) b a) = true := by
  intro a b
  exact strLeB_total _ _

/-- With every sort key present, the source comparator agrees with the
plain key comparator on the list's elements, so the two sorts coincide. -/
theorem processSpecialSatsangList_eq_plain (items : List Item)
    (h : ∀ it ∈ items, it.ymd ≠ "") :
    processSpecialSatsangList items =
      (items.map toEvent).mergeSort
        (fun x y : SpecialEvent => strLeB x.ymdForSort y.ymdForSort) := by
  have hc : ∀ a ∈ items.map toEvent, ∀ b ∈ items.map toEvent,
      specialCmpLe a b = strLeB a.ymdForSort b.ymdForSort := by
    intro a ha b hb
    obtain ⟨ita, hita, rfl⟩ := List.mem_map.mp ha
    obtain ⟨itb, hitb, rfl⟩ := List.mem_map.mp hb
    have ha' : (toEvent ita).ymdForSort ≠ "" := h ita hita
    have hb' : (toEvent itb).ymdForSort ≠ "" := h itb hitb
    simp [specialCmpLe, ha', hb']
  have := @List.map_mergeSort SpecialEvent SpecialEvent specialCmpLe
    (fun x y : SpecialEvent => strLeB x.ymdForSort y.ymdForSort)
    (fun e : SpecialEvent => e) (items.map toEvent) hc
  simpa [List.map_id', processSpecialSatsangList] using this

/-- C9 amended: the special-event list builder returns the input rows
mapped to flat records; when every row has a (nonempty) sort key the
output is sorted ascending by the underlying ISO date and the sort is
stable - rows with equal sort keys keep their relative input order.  (A
missing sort key makes the comparator inconsistent and carries no
ordering guarantee.) -/
theorem processSpecialSatsangList_sorted_stable (items : List Item)
    (h : ∀ it ∈ items, it.ymd ≠ "") :
    (processSpecialSatsangList items).Perm (items.map toEvent) ∧
    List.Pairwise (fun a b : SpecialEvent => a.ymdForSort ≤ b.ymdForSort)
      (processSpecialSatsangList items) ∧
    (∀ a b : SpecialEvent, [a, b].Sublist (items.map toEvent) →
      a.ymdForSort = b.ymdForSort → [a, b].Sublist (processSpecialSatsangList items)) := by
  refine ⟨List.mergeSort_perm _ _, ?_, ?_⟩
  · rw [processSpecialSatsangList_eq_plain items h]
    have hs := List.sorted_mergeSort plainEvLe_trans plainEvLe_total (items.map toEvent)
    exact hs.imp (fun hab => strLeB_iff.mp hab)
  · intro a b hsub heq
    rw [processSpecialSatsangList_eq_plain items h]
    exact List.pair_sublist_mergeSort plainEvLe_trans plainEvLe_total
      (strLeB_iff.mpr (le_of_eq (by rw [heq]))) hsub

/-- C9 witness: on three dated rows, two sharing the date 2024-03-01, the
output is ascending by date. -/
theorem processSpecialSatsangList_sorted_stable_witness :
    (∀ it ∈ exC9WItems, it.ymd ≠ "") ∧
    List.Pairwise (fun a b : SpecialEvent => a.ymdForSort ≤ b.ymdForSort)
      (processSpecialSatsangList exC9WItems) :=
  ⟨by decide, (processSpecialSatsangList_sorted_stable exC9WItems (by decide)).2.1⟩

/-- C9 counterexample: the row with the missing sort key (input position 1,
before the 2024-03-01 row at position 2) ends up after it: a pair the
comparator treats as equal-order does not keep its relative input order,
and the output is not sorted by date around it. -/
theorem specialList_reorders_missing_key :
    exC9Items.map Item.ymd = ["2024-03-10", "", "2024-03-01"] ∧
    (processSpecialSatsangList exC9Items).map SpecialEvent.ymdForSort =
      ["2024-03-01", "2024-03-10", ""] := by
  constructor
  · rfl
  · have hmap : exC9Items.map toEvent =
        [{ ymdForSort := "2024-03-10",
           fields := ["10-03-2024", "Special", "CEN", "5", "Mode", "Name", "Arr", "Sat",
                      "Saint", "Book", "Start", "End"] },
         { ymdForSort := "",
           fields := ["", "Special", "CEN", "6", "Mode", "Name", "Arr", "Sat",
                      "Saint", "Book", "Start", "End"] },
         { ymdForSort := "2024-03-01",
           fields := ["01-03-2024", "Special", "CEN", "7", "Mode", "Name", "Arr", "Sat",
                      "Saint", "Book", "Start", "End"] }] := by decide
    have hstep : processSpecialSatsangList exC9Items =
        List.mergeSort (exC9Items.map toEvent) specialCmpLe := rfl
    rw [hstep, hmap, mergeSort_triple, if_pos (by decide), List.cons_merge_cons,
      if_neg (by decide), List.merge_right]
    decide

/-! ## C6: chronological ordering of the date columns -/

theorem stepItem_udi (st : PivotState) (p : Nat × Item) :
    (stepItem st p).uniqueDateInfo =
      if p.2.ymd = "" then st.uniqueDateInfo
      else if (alookup st.uniqueDateInfo (derivePivotKey p.2.ymd)).isSome then st.uniqueDateInfo
      else st.uniqueDateInfo ++ [(derivePivotKey p.2.ymd, p.2.ymd)] := by
  simp only [stepItem]
  split
  · rfl
  · split <;> split <;> rfl

theorem alookup_isNone_iff {β : Type} {l : List (String × β)} {k : String} :
    (alookup l k).isSome = false ↔ ∀ p ∈ l, p.1 ≠ k := by
  rw [alookup]
  cases hfind : l.find? (fun p => p.1 == k) with
  | none =>
    simp only [Option.map_none', Option.isSome_none, true_iff]
    have hall := List.find?_eq_none.mp hfind
    intro p hp
    simpa using hall p hp
  | some p =>
    simp only [Option.map_some', Option.isSome_some, Bool.true_eq_false, false_iff, not_forall]
    have hmem := List.mem_of_find?_eq_some hfind
    have hpk := List.find?_some hfind
    simp only [beq_iff_eq] at hpk
    exact ⟨p, hmem, by simp [hpk]⟩

/-- The invariant maintained on `uniqueDateInfo` by the aggregation loop:
keys are distinct, each entry's key derives from its stored ISO date, and
every stored ISO date is a nonempty date string drawn from the input. -/
theorem udi_inv (R : String → Prop) :
    ∀ (l : List (Nat × Item)) (st : PivotState),
      ((st.uniqueDateInfo.map Prod.fst).Nodup) →
      (∀ p ∈ st.uniqueDateInfo, p.1 = derivePivotKey p.2 ∧ p.2 ≠ "" ∧ R p.2) →
      (∀ q ∈ l, q.2.ymd ≠ "" → R q.2.ymd) →
      (((l.foldl stepItem st).uniqueDateInfo.map Prod.fst).Nodup ∧
       (∀ p ∈ (l.foldl stepItem st).uniqueDateInfo,
          p.1 = derivePivotKey p.2 ∧ p.2 ≠ "" ∧ R p.2)) := by
  intro l
  induction l with
  | nil => intro st h1 h2 _; exact ⟨h1, h2⟩
  | cons q rest ih =>
    intro st h1 h2 h3
    rw [List.foldl_cons]
    refine ih (stepItem st q) ?_ ?_ (fun q' hq' => h3 q' (List.mem_cons_of_mem _ hq'))
    · rw [stepItem_udi]
      split
      · exact h1
      · split
        · exact h1
        · rename_i hne hnone
          rw [List.map_append, List.map_singleton]
          rw [List.nodup_append]
          refine ⟨h1, List.nodup_singleton _, ?_⟩
          intro k hk
          simp only [List.mem_singleton]
          intro hkk
          rcases List.mem_map.mp hk with ⟨p, hp, rfl⟩
          have : (alookup st.uniqueDateInfo (derivePivotKey q.2.ymd)).isSome = false := by
            cases hE : (alookup st.uniqueDateInfo (derivePivotKey q.2.ymd)).isSome
            · rfl
            · exact absurd hE hnone
          exact alookup_isNone_iff.mp this p hp hkk
    · rw [stepItem_udi]
      split
      · exact h2
      · split
        · exact h2
        · rename_i hne _
          intro p hp
          rcases List.mem_append.mp hp with hp | hp
          · exact h2 p hp
          · rcases List.mem_singleton.mp hp with rfl
            exact ⟨rfl, hne, h3 q (List.mem_cons_self _ _) hne⟩

theorem pairLe_trans :
    ∀ a b c : String × String,
      (fun p q : String × String => strLeB p.2 q.2) a b →
      (fun p q : String × String => strLeB p.2 q.2) b c →
      (fun p q : String × String => strLeB p.2 q.2) a c := by
  intro a b c hab hbc
  exact strLeB_trans hab hbc

theorem pairLe_total :
    ∀ a b : String × String,
      ((fun p q : String × String => strLeB p.2 q.2) a b ||
       (fun p q : String × String => strLeB p.2 q.2) b a) = true := by
  intro a b
  exact strLeB_total _ _

/-- C6: for every bucket whose rows carry canonical normalised dates, the
`sortedDates` column list is strictly ascending by the underlying calendar
date of each display key, for all adjacent pairs. -/
theorem sortedDates_chronological (items : List Item) (flag : Bool)
    (h : ∀ it ∈ items, it.ymd ≠ "" → canonicalYmdStr it.ymd) :
    List.Chain' keyYmdLt (processAndSortData items flag).sortedDates := by
  rw [processAndSortData]
  split
  · exact List.chain'_nil
  · show List.Chain' keyYmdLt (sortKeysByYmd (runPivot items).uniqueDateInfo)
    have henum : ∀ q ∈ items.enum, q.2.ymd ≠ "" → canonicalYmdStr q.2.ymd := by
      intro q hq
      have : q.2 ∈ items.enum.map Prod.snd := List.mem_map_of_mem _ hq
      rw [List.enum_map_snd] at this
      exact h q.2 this
    have hinv := udi_inv canonicalYmdStr items.enum { processedData := [], uniqueDateInfo := [] }
      (by simp) (by simp) henum
    set udi := (items.enum.foldl stepItem
      { processedData := [], uniqueDateInfo := [] }).uniqueDateInfo with hudi
    have h1 : (udi.map Prod.fst).Nodup := hinv.1
    have h2 : ∀ p ∈ udi, p.1 = derivePivotKey p.2 ∧ p.2 ≠ "" ∧ canonicalYmdStr p.2 := hinv.2
    have hsortedLe := List.sorted_mergeSort pairLe_trans pairLe_total udi
    have hperm : (udi.mergeSort (fun p q : String × String => strLeB p.2 q.2)).Perm udi :=
      List.mergeSort_perm udi _
    have hne : List.Pairwise (fun p q : String × String => p.1 ≠ q.1)
        (udi.mergeSort (fun p q : String × String => strLeB p.2 q.2)) := by
      have hudine : List.Pairwise (fun p q : String × String => p.1 ≠ q.1) udi :=
        (List.pairwise_map).mp h1
      exact (hperm.pairwise_iff (fun hab => Ne.symm hab)).mpr hudine
    have hboth := hsortedLe.and hne
    have hkey : List.Pairwise (fun p q : String × String => keyYmdLt p.1 q.1)
        (udi.mergeSort (fun p q : String × String => strLeB p.2 q.2)) := by
      refine List.Pairwise.imp_of_mem ?_ hboth
      intro p q hp hq hpq
      have hip := h2 p ((List.mem_mergeSort).mp hp)
      have hiq := h2 q ((List.mem_mergeSort).mp hq)
      obtain ⟨hpk, _, dtp, hvp, hp0, hp1, hpe⟩ := hip
      obtain ⟨hqk, _, dtq, hvq, hq0, hq1, hqe⟩ := hiq
      have hyne : p.2 ≠ q.2 := by
        intro hcon
        exact hpq.2 (by rw [hpk, hqk, hcon])
      have hle : p.2 ≤ q.2 := strLeB_iff.mp hpq.1
      rw [hpe, hqe] at hle hyne
      have hlt := ymdLt_of_formatYmd_le hvp hvq hp0 hp1 hq0 hq1 hle hyne
      have hpk2 : p.1 = formatDmy dtp := by
        rw [hpk, hpe, derivePivotKey_formatYmd hvp hp0 hp1]
      have hqk2 : q.1 = formatDmy dtq := by
        rw [hqk, hqe, derivePivotKey_formatYmd hvq hq0 hq1]
      show keyYmdLt p.1 q.1
      rw [keyYmdLt, hpk2, hqk2, parseDmyDash_formatDmy hvp hp0 hp1,
        parseDmyDash_formatDmy hvq hq0 hq1]
      exact hlt
    have hmapped : List.Pairwise keyYmdLt (sortKeysByYmd udi) := by
      rw [sortKeysByYmd]
      exact (List.pairwise_map).mpr hkey
    exact hmapped.chain'

/-- C6 witness: a Sunday bucket spanning a year boundary; the display keys
`30-12-2023` and `02-01-2024` are not in lexical order, yet the column list
is chronologically ascending. -/
theorem sortedDates_chronological_witness :
    List.Chain' keyYmdLt (processAndSortData exC6Items true).sortedDates ∧
    (processAndSortData exC6Items true).sortedDates = ["30-12-2023", "02-01-2024"] := by
  constructor
  · refine sortedDates_chronological exC6Items true ?_
    intro it hit _
    simp only [exC6Items, List.mem_cons, List.not_mem_nil, or_false] at hit
    rcases hit with rfl | rfl
    · exact ⟨{ year := 2024, month := 1, day := 2 }, by decide, by decide, by decide, by decide⟩
    · exact ⟨{ year := 2023, month := 12, day := 30 }, by decide, by decide, by decide, by decide⟩
  · have hudi : (runPivot exC6Items).uniqueDateInfo =
        [("02-01-2024", "2024-01-02"), ("30-12-2023", "2023-12-30")] := by decide
    have hs : (processAndSortData exC6Items true).sortedDates =
        sortKeysByYmd (runPivot exC6Items).uniqueDateInfo := rfl
    rw [hs, hudi, sortKeysByYmd, mergeSort_pair, if_neg (by decide)]
    decide

/-! ## C3: the appended (non-canonical) centres -/

theorem strLeB_trans_rule :
    ∀ a b c : String, strLeB a b → strLeB b c → strLeB a c := by
  intro a b c hab hbc
  exact strLeB_trans hab hbc

theorem strLeB_total_rule :
    ∀ a b : String, (strLeB a b || strLeB b a) = true := by
  intro a b
  exact strLeB_total a b

/-- `buildRows` on the canonical-order (Sunday) bucket: the canonical rows
followed by the appended rows. -/
theorem buildRows_true (pd : List (String × CentreAgg)) (keys : List String) :
    buildRows true pd keys =
      customCentreOrder.map (mkCanonRow keys pd) ++
        (((pd.map Prod.fst).mergeSort strLeB).filter
          (fun c => ! customCentreOrder.contains c)).map (mkExtraRow pd) := by
  simp [buildRows]

/-- C3 amended: in the canonical-order bucket, the output first lists every
canonical centre in canonical order; the centres appended after them are
exactly the data centres outside the canonical order, sorted
alphabetically - but each appended centre is flagged `isMissingData =
false` unconditionally (Code.js line 609), not according to whether it
lacks a date cell. -/
theorem processAndSortData_extras (items : List Item) :
    (((processAndSortData items true).templateData.take customCentreOrder.length).map
        OutRow.centre = customCentreOrder) ∧
    List.Pairwise (fun a b : OutRow => a.centre ≤ b.centre)
      ((processAndSortData items true).templateData.drop customCentreOrder.length) ∧
    (∀ r ∈ (processAndSortData items true).templateData.drop customCentreOrder.length,
       r.isMissingData = false ∧ r.centre ∉ customCentreOrder ∧
       r.centre ∈ (runPivot items).processedData.map Prod.fst) ∧
    (∀ c ∈ (runPivot items).processedData.map Prod.fst, c ∉ customCentreOrder →
       c ∈ ((processAndSortData items true).templateData.drop customCentreOrder.length).map
         OutRow.centre) := by
  have hres : processAndSortData items true =
      { templateData := buildRows true (runPivot items).processedData
          (sortKeysByYmd (runPivot items).uniqueDateInfo)
        sortedDates := sortKeysByYmd (runPivot items).uniqueDateInfo } := by
    rw [processAndSortData, if_neg (by simp)]
  rw [hres]
  rw [buildRows_true]
  set pd := (runPivot items).processedData with hpd
  set keys := sortKeysByYmd (runPivot items).uniqueDateInfo with hkeys
  set canonical := customCentreOrder.map (mkCanonRow keys pd) with hcanon
  set extras := (((pd.map Prod.fst).mergeSort strLeB).filter
      (fun c => ! customCentreOrder.contains c)).map (mkExtraRow pd) with hextras
  have hlen : canonical.length = customCentreOrder.length := by
    rw [hcanon, List.length_map]
  have htake : (canonical ++ extras).take customCentreOrder.length = canonical :=
    List.take_left' hlen
  have hdrop : (canonical ++ extras).drop customCentreOrder.length = extras :=
    List.drop_left' hlen
  refine ⟨?_, ?_, ?_, ?_⟩
  · rw [htake, hcanon, List.map_map]
    have : (OutRow.centre ∘ mkCanonRow keys pd) = id := by
      funext c
      simp [mkCanonRow]
    rw [this, List.map_id]
  · rw [hdrop, hextras]
    rw [List.pairwise_map]
    have hsorted : List.Pairwise (fun a b : String => a ≤ b)
        ((pd.map Prod.fst).mergeSort strLeB) := by
      have := List.sorted_mergeSort strLeB_trans_rule strLeB_total_rule (pd.map Prod.fst)
      exact this.imp (fun hab => strLeB_iff.mp hab)
    exact (hsorted.filter _).imp (fun hab => by simpa [mkExtraRow] using hab)
  · rw [hdrop, hextras]
    intro r hr
    rcases List.mem_map.mp hr with ⟨c, hc, rfl⟩
    rcases List.mem_filter.mp hc with ⟨hcs, hcond⟩
    refine ⟨rfl, ?_, ?_⟩
    · simpa using hcond
    · simpa [mkExtraRow] using (List.mem_mergeSort).mp hcs
  · intro c hcmem hcnot
    rw [hdrop, hextras, List.map_map]
    have hin : c ∈ ((pd.map Prod.fst).mergeSort strLeB).filter
        (fun c => ! customCentreOrder.contains c) := by
      rw [List.mem_filter]
      exact ⟨(List.mem_mergeSort).mpr hcmem, by simpa using hcnot⟩
    have : (OutRow.centre ∘ mkExtraRow pd) c = c := by simp [mkExtraRow]
    exact this ▸ List.mem_map_of_mem _ hin

/-- C3 witness: in a bucket with data at centres `ZED` and `ALWAR`, the
output is the 34 canonical centres followed by the lone appended centre
`ZED`. -/
theorem processAndSortData_extras_witness :
    (((processAndSortData exC3Items true).templateData.drop customCentreOrder.length).map
        OutRow.centre = ["ZED"]) ∧
    ("ZED" : String) ∈ (runPivot exC3Items).processedData.map Prod.fst ∧
    ("ZED" : String) ∉ customCentreOrder := by
  refine ⟨?_, by decide, by decide⟩
  have h := (processAndSortData_extras exC3Items).2.2.2 ("ZED")
    (by decide) (by decide)
  have hsub : ((processAndSortData exC3Items true).templateData.drop
      customCentreOrder.length).map OutRow.centre =
      ((((runPivot exC3Items).processedData.map Prod.fst).mergeSort strLeB).filter
        (fun c => ! customCentreOrder.contains c)) := by
    have hres : processAndSortData exC3Items true =
        { templateData := buildRows true (runPivot exC3Items).processedData
            (sortKeysByYmd (runPivot exC3Items).uniqueDateInfo)
          sortedDates := sortKeysByYmd (runPivot exC3Items).uniqueDateInfo } := by
      rw [processAndSortData, if_neg (by simp)]
    rw [hres]
    rw [buildRows_true]
    rw [List.drop_left' (by rw [List.length_map]), List.map_map]
    have : (OutRow.centre ∘ mkExtraRow (runPivot exC3Items).processedData) = id := by
      funext c
      simp [mkExtraRow]
    rw [this, List.map_id]
  rw [hsub]
  have hpdkeys : (runPivot exC3Items).processedData.map Prod.fst = ["ZED", "ALWAR"] := by decide
  rw [hpdkeys, mergeSort_pair, if_neg (by decide)]
  decide

/-- C3 counterexample: the appended centre `ZED` lacks a cell for the date
key `10-03-2024`, which is present in the bucket's `sortedDates`, yet its
`isMissingData` flag is `false`. -/
theorem extraCentre_missingFlag_false :
    (processAndSortData exC3Items true).sortedDates = ["03-03-2024", "10-03-2024"] ∧
    ((processAndSortData exC3Items true).templateData.drop customCentreOrder.length).map
        (fun r => (r.centre, r.isMissingData)) = [("ZED", false)] ∧
    (((processAndSortData exC3Items true).templateData.drop customCentreOrder.length).all
        (fun r => (alookup r.dateData "10-03-2024").isNone)) = true := by
  have hres : processAndSortData exC3Items true =
      { templateData := buildRows true (runPivot exC3Items).processedData
          (sortKeysByYmd (runPivot exC3Items).uniqueDateInfo)
        sortedDates := sortKeysByYmd (runPivot exC3Items).uniqueDateInfo } := by
    rw [processAndSortData, if_neg (by simp)]
  have hudi : (runPivot exC3Items).uniqueDateInfo =
      [("03-03-2024", "2024-03-03"), ("10-03-2024", "2024-03-10")] := by decide
  have hkeys : sortKeysByYmd (runPivot exC3Items).uniqueDateInfo =
      ["03-03-2024", "10-03-2024"] := by
    rw [hudi, sortKeysByYmd, mergeSort_pair, if_pos (by decide)]
    rfl
  have hpdkeys : (runPivot exC3Items).processedData.map Prod.fst = ["ZED", "ALWAR"] := by decide
  have hsorted : ((runPivot exC3Items).processedData.map Prod.fst).mergeSort strLeB =
      ["ALWAR", "ZED"] := by
    rw [hpdkeys, mergeSort_pair, if_neg (by decide)]
  rw [hres]
  simp only [buildRows_true, hkeys, hsorted]
  refine ⟨by trivial, ?_, ?_⟩ <;>
    · rw [List.drop_left' (by rw [List.length_map])]
      decide

/-! ## C10: every emitted field is a display value or the empty string -/

theorem dispCell_cases (row : List (Option String)) (i : Nat) :
    dispCell row i = "" ∨ row[i]? = some (some (dispCell row i)) := by
  rcases h : row[i]? with _ | c
  · left; simp [dispCell, h]
  · rcases c with _ | s
    · left; simp [dispCell, h]
    · right; simp [dispCell, h]

theorem mem_upsertA {β : Type} {l : List (String × β)} {k : String} {v : β} {x : String × β}
    (hx : x ∈ upsertA l k v) : x ∈ l ∨ x = (k, v) := by
  rw [upsertA] at hx
  split at hx
  · rcases List.mem_map.mp hx with ⟨p, hp, rfl⟩
    split
    · exact Or.inr rfl
    · exact Or.inl hp
  · rcases List.mem_append.mp hx with h | h
    · exact Or.inl h
    · exact Or.inr (List.mem_singleton.mp h)

theorem alookup_mem {β : Type} {l : List (String × β)} {k : String} {v : β}
    (h : alookup l k = some v) : ∃ p ∈ l, p.2 = v := by
  rw [alookup] at h
  rcases hf : l.find? (fun p => p.1 == k) with _ | p
  · rw [hf] at h; cases h
  · rw [hf] at h
    simp only [Option.map_some', Option.some.injEq] at h
    exact ⟨p, List.mem_of_find?_eq_some hf, h⟩

/-- The effect of one loop iteration on `processedData`, with the update
phrased through `aggStep`. -/
theorem stepItem_pd (st : PivotState) (p : Nat × Item) :
    (stepItem st p).processedData =
      if p.2.ymd = "" then st.processedData
      else
        if (alookup ((alookup st.processedData (centreNameOf p.2 p.1)).getD emptyAgg).dateData
            (derivePivotKey p.2.ymd)).isSome then
          (if (alookup st.processedData (centreNameOf p.2 p.1)).isSome then st.processedData
           else st.processedData ++ [(centreNameOf p.2 p.1, emptyAgg)])
        else
          upsertA
            (if (alookup st.processedData (centreNameOf p.2 p.1)).isSome then st.processedData
             else st.processedData ++ [(centreNameOf p.2 p.1, emptyAgg)])
            (centreNameOf p.2 p.1)
            (aggStep ((alookup st.processedData (centreNameOf p.2 p.1)).getD emptyAgg)
              { centre := centreNameOf p.2 p.1, key := derivePivotKey p.2.ymd,
                metric := metricOf p.2, det := eventDetailsOf p.2.displayRow }) := by
  simp only [stepItem, aggStep]
  split
  · rfl
  · split <;> rfl

/-- Any pivot cell present after one loop iteration was present before or
is the detail cell of the processed row. -/
theorem stepItem_cells_sub (st : PivotState) (p : Nat × Item) :
    ∀ e ∈ (stepItem st p).processedData, ∀ cell ∈ e.2.dateData,
      (∃ e' ∈ st.processedData, cell ∈ e'.2.dateData) ∨
        cell.2 = eventDetailsOf p.2.displayRow := by
  intro e he cell hcell
  rw [stepItem_pd] at he
  split at he
  · exact Or.inl ⟨e, he, hcell⟩
  · split at he
    · split at he
      · exact Or.inl ⟨e, he, hcell⟩
      · rcases List.mem_append.mp he with h | h
        · exact Or.inl ⟨e, h, hcell⟩
        · rcases List.mem_singleton.mp h with rfl
          simp [emptyAgg] at hcell
    · rcases mem_upsertA he with h | rfl
      · split at h
        · exact Or.inl ⟨e, h, hcell⟩
        · rcases List.mem_append.mp h with h | h
          · exact Or.inl ⟨e, h, hcell⟩
          · rcases List.mem_singleton.mp h with rfl
            simp [emptyAgg] at hcell
      · simp only [aggStep] at hcell
        rcases List.mem_append.mp hcell with h | h
        · rcases halo : alookup st.processedData (centreNameOf p.2 p.1) with _ | agg
          · rw [halo] at h
            simp [emptyAgg] at h
          · rw [halo] at h
            rcases alookup_mem halo with ⟨e', he', hv⟩
            exact Or.inl ⟨e', he', by rw [← hv] at h; exact h⟩
        · rcases List.mem_singleton.mp h with rfl
          exact Or.inr rfl

theorem foldl_cells (Q : List String → Prop) :
    ∀ (l : List (Nat × Item)) (st : PivotState),
      (∀ e ∈ st.processedData, ∀ cell ∈ e.2.dateData, Q cell.2) →
      (∀ q ∈ l, Q (eventDetailsOf q.2.displayRow)) →
      (∀ e ∈ (l.foldl stepItem st).processedData, ∀ cell ∈ e.2.dateData, Q cell.2) := by
  intro l
  induction l with
  | nil => intro st hst _; exact hst
  | cons q rest ih =>
    intro st hst hl
    rw [List.foldl_cons]
    refine ih (stepItem st q) ?_ (fun q' hq' => hl q' (List.mem_cons_of_mem _ hq'))
    intro e he cell hcell
    rcases stepItem_cells_sub st q e he cell hcell with ⟨e', he', hc'⟩ | hc
    · exact hst e' he' cell hc'
    · rw [hc]
      exact hl q (List.mem_cons_self _ _)

/-- Every pivot cell of the aggregation state is the detail cell of some
input row. -/
theorem runPivot_cells (items : List Item) :
    ∀ e ∈ (runPivot items).processedData, ∀ cell ∈ e.2.dateData,
      ∃ it ∈ items, cell.2 = eventDetailsOf it.displayRow := by
  rw [runPivot]
  refine foldl_cells (fun d => ∃ it ∈ items, d = eventDetailsOf it.displayRow) items.enum
    { processedData := [], uniqueDateInfo := [] } (by simp) ?_
  intro q hq
  have : q.2 ∈ items.enum.map Prod.snd := List.mem_map_of_mem _ hq
  rw [List.enum_map_snd] at this
  exact ⟨q.2, this, rfl⟩

/-- Every cell of every output row comes from the aggregation state. -/
theorem buildRows_cells (flag : Bool) (pd : List (String × CentreAgg)) (keys : List String) :
    ∀ r ∈ buildRows flag pd keys, ∀ cell ∈ r.dateData, ∃ e ∈ pd, cell ∈ e.2.dateData := by
  intro r hr cell hcell
  rw [buildRows] at hr
  rcases List.mem_append.mp hr with h | h
  · split at h
    · rcases List.mem_map.mp h with ⟨c, _, rfl⟩
      rw [mkCanonRow] at hcell
      simp only at hcell
      rcases halo : alookup pd c with _ | agg
      · rw [halo] at hcell; simp at hcell
      · rw [halo] at hcell
        rcases alookup_mem halo with ⟨e', he', hv⟩
        exact ⟨e', he', by rw [← hv] at hcell; exact hcell⟩
    · cases h
  · rcases List.mem_map.mp h with ⟨c, _, rfl⟩
    rw [mkExtraRow] at hcell
    simp only at hcell
    rcases halo : alookup pd c with _ | agg
    · rw [halo] at hcell; simp at hcell
    · rw [halo] at hcell
      rcases alookup_mem halo with ⟨e', he', hv⟩
      exact ⟨e', he', by rw [← hv] at hcell; exact hcell⟩

/-- C10: every detail field of every pivot cell, and every field of every
special-event record, is a display-row cell value with null/undefined
replaced by the empty string: each emitted field is either empty or
literally a present display cell of some input row. -/
theorem outputs_from_display (items : List Item) (flag : Bool) :
    (∀ f ∈ pivotCellFields (processAndSortData items flag),
       f = "" ∨ ∃ it ∈ items, ∃ i : Nat, it.displayRow[i]? = some (some f)) ∧
    (∀ f ∈ specialFields (processSpecialSatsangList items),
       f = "" ∨ ∃ it ∈ items, ∃ i : Nat, it.displayRow[i]? = some (some f)) := by
  constructor
  · intro f hf
    rw [pivotCellFields] at hf
    rcases List.mem_flatMap.mp hf with ⟨r, hr, hf2⟩
    rcases List.mem_flatMap.mp hf2 with ⟨cell, hcell, hf3⟩
    have hsrc : ∃ it ∈ items, cell.2 = eventDetailsOf it.displayRow := by
      rw [processAndSortData] at hr
      split at hr
      · simp at hr
      · simp only at hr
        rcases buildRows_cells flag _ _ r hr cell hcell with ⟨e, he, hc⟩
        exact runPivot_cells items e he cell hc
    rcases hsrc with ⟨it, hit, hdet⟩
    rw [hdet, eventDetailsOf] at hf3
    rcases List.mem_map.mp hf3 with ⟨i, _, rfl⟩
    rcases dispCell_cases it.displayRow i with h | h
    · exact Or.inl h
    · exact Or.inr ⟨it, hit, i, h⟩
  · intro f hf
    rw [specialFields] at hf
    rcases List.mem_flatMap.mp hf with ⟨ev, hev, hf2⟩
    have hev2 : ev ∈ items.map toEvent := (List.mem_mergeSort).mp hev
    rcases List.mem_map.mp hev2 with ⟨it, hit, rfl⟩
    rw [toEvent] at hf2
    simp only at hf2
    rcases List.mem_map.mp hf2 with ⟨i, _, rfl⟩
    rcases dispCell_cases it.displayRow i with h | h
    · exact Or.inl h
    · exact Or.inr ⟨it, hit, i, h⟩

/-- C10 witness: in a bucket with a null attendance cell, the emitted field
`Mode` traces back to a present display cell of the input row. -/
theorem outputs_from_display_witness :
    ("Mode" : String) ∈ pivotCellFields (processAndSortData exC10Items true) ∧
    (("Mode" : String) = "" ∨
      ∃ it ∈ exC10Items, ∃ i : Nat, it.displayRow[i]? = some (some "Mode")) := by
  have hres : processAndSortData exC10Items true =
      { templateData := buildRows true (runPivot exC10Items).processedData
          (sortKeysByYmd (runPivot exC10Items).uniqueDateInfo)
        sortedDates := sortKeysByYmd (runPivot exC10Items).uniqueDateInfo } := by
    rw [processAndSortData, if_neg (by simp)]
  have hudi : (runPivot exC10Items).uniqueDateInfo = [("03-03-2024", "2024-03-03")] := by decide
  have hkeys : sortKeysByYmd (runPivot exC10Items).uniqueDateInfo = ["03-03-2024"] := by
    rw [hudi, sortKeysByYmd, List.mergeSort_singleton]
    rfl
  have hpdkeys : (runPivot exC10Items).processedData.map Prod.fst = ["ALWAR"] := by decide
  have hsorted : ((runPivot exC10Items).processedData.map Prod.fst).mergeSort strLeB =
      ["ALWAR"] := by
    rw [hpdkeys, List.mergeSort_singleton]
  have hmem : ("Mode" : String) ∈ pivotCellFields (processAndSortData exC10Items true) := by
    rw [hres, pivotCellFields]
    simp only [buildRows_true, hkeys, hsorted]
    decide
  exact ⟨hmem, (outputs_from_display exC10Items true).1 ("Mode") hmem⟩

/-! ## C7: first-write-wins aggregation per (centre, date key) pair -/

theorem alookup_nil {β : Type} (k : String) : alookup ([] : List (String × β)) k = none := rfl

theorem alookup_cons {β : Type} (p : String × β) (l : List (String × β)) (k : String) :
    alookup (p :: l) k = if p.1 == k then some p.2 else alookup l k := by
  by_cases hp : (p.1 == k) = true
  · simp [alookup, List.find?, hp]
  · have hp' : (p.1 == k) = false := by
      cases he : (p.1 == k)
      · rfl
      · exact absurd he hp
    simp [alookup, List.find?, hp']

theorem alookup_append {β : Type} (l₁ l₂ : List (String × β)) (k : String) :
    alookup (l₁ ++ l₂) k =
      match alookup l₁ k with
      | some v => some v
      | none => alookup l₂ k := by
  induction l₁ with
  | nil => rw [List.nil_append, alookup_nil]
  | cons p l ih =>
    rw [List.cons_append, alookup_cons, alookup_cons]
    by_cases hp : (p.1 == k) = true
    · rw [if_pos hp, if_pos hp]
    · rw [if_neg hp, if_neg hp, ih]

theorem alookup_append_single_ne {β : Type} (l : List (String × β)) (k' k : String) (v : β)
    (h : (k' == k) = false) : alookup (l ++ [(k', v)]) k = alookup l k := by
  rw [alookup_append]
  rcases halo : alookup l k with _ | a
  · rw [alookup_cons, if_neg (by rw [h]; exact Bool.false_ne_true), alookup_nil]
  · rfl

theorem alookup_append_single_none {β : Type} (l : List (String × β)) (k : String) (v : β)
    (h : alookup l k = none) : alookup (l ++ [(k, v)]) k = some v := by
  rw [alookup_append, h, alookup_cons, if_pos (beq_self_eq_true k)]

theorem isNone_alookup_append_single {β : Type} (d : List (String × β)) (k₀ k : String) (v : β) :
    (alookup (d ++ [(k₀, v)]) k).isNone = ((alookup d k).isNone && (k₀ != k)) := by
  rw [alookup_append]
  rcases halo : alookup d k with _ | a
  · rw [alookup_cons, alookup_nil]
    by_cases hk : (k₀ == k) = true
    · rw [if_pos hk]
      simp [bne, hk]
    · rw [if_neg hk]
      have hk' : (k₀ == k) = false := by
        cases he : (k₀ == k)
        · rfl
        · exact absurd he hk
      simp [bne, hk']
  · rfl

theorem alookup_map_upsert {β : Type} (l : List (String × β)) (k : String) (v : β)
    (h : (alookup l k).isSome = true) :
    alookup (l.map (fun p => if p.1 == k then (k, v) else p)) k = some v := by
  induction l with
  | nil => rw [alookup_nil] at h; cases h
  | cons p l ih =>
    rw [alookup_cons] at h
    by_cases hp : (p.1 == k) = true
    · rw [List.map_cons, if_pos hp, alookup_cons, if_pos (beq_self_eq_true k)]
    · rw [if_neg hp] at h
      rw [List.map_cons, if_neg hp, alookup_cons, if_neg hp]
      exact ih h

theorem alookup_map_ne {β : Type} (l : List (String × β)) (k' k : String) (v : β)
    (h : (k' == k) = false) :
    alookup (l.map (fun p => if p.1 == k' then (k', v) else p)) k = alookup l k := by
  induction l with
  | nil => rfl
  | cons p l ih =>
    by_cases hp : (p.1 == k') = true
    · have hpk : (p.1 == k) = false := by
        rw [beq_eq_false_iff_ne]
        rw [show p.1 = k' from eq_of_beq hp]
        exact beq_eq_false_iff_ne.mp h
      rw [List.map_cons, if_pos hp, alookup_cons, alookup_cons,
        if_neg (by rw [h]; exact Bool.false_ne_true),
        if_neg (by rw [hpk]; exact Bool.false_ne_true), ih]
    · rw [List.map_cons, if_neg hp, alookup_cons, alookup_cons, ih]

theorem alookup_upsertA_self {β : Type} (l : List (String × β)) (k : String) (v : β) :
    alookup (upsertA l k v) k = some v := by
  rw [upsertA]
  rcases h : alookup l k with _ | a
  · rw [if_neg (show ¬((none : Option β).isSome = true) from fun hc => Bool.false_ne_true hc)]
    exact alookup_append_single_none l k v h
  · rw [if_pos (show (some a).isSome = true from rfl)]
    exact alookup_map_upsert l k v (by rw [h]; rfl)

theorem alookup_upsertA_ne {β : Type} (l : List (String × β)) (k' k : String) (v : β)
    (h : (k' == k) = false) : alookup (upsertA l k' v) k = alookup l k := by
  rw [upsertA]
  split
  · exact alookup_map_ne l k' k v h
  · exact alookup_append_single_ne l k' k v h

theorem centreContinue_append (l₁ l₂ : List ProjRow) (acc : Option CentreAgg) :
    centreContinue (l₁ ++ l₂) acc = centreContinue l₂ (centreContinue l₁ acc) := by
  induction l₁ generalizing acc with
  | nil => rfl
  | cons r rest ih =>
    rw [List.cons_append]
    simp only [centreContinue]
    split
    · exact ih _
    · exact ih _

theorem stepItem_lookup (st : PivotState) (p : Nat × Item) (c : String) :
    alookup (stepItem st p).processedData c =
      centreContinue ((projOf p).toList.filter (fun r => r.centre == c))
        (alookup st.processedData c) := by
  by_cases hymd : p.2.ymd = ""
  · rw [stepItem_pd, if_pos hymd, projOf, if_pos hymd]
    rfl
  · have hpo : projOf p = some
        { centre := centreNameOf p.2 p.1, key := derivePivotKey p.2.ymd,
          metric := metricOf p.2, det := eventDetailsOf p.2.displayRow } := by
      rw [projOf, if_neg hymd]
    rw [stepItem_pd, if_neg hymd, hpo]
    by_cases hc : (centreNameOf p.2 p.1 == c) = true
    · have hceq : centreNameOf p.2 p.1 = c := eq_of_beq hc
      rw [hceq]
      simp only [Option.toList, List.filter_cons, List.filter_nil,
        if_pos (beq_self_eq_true c), centreContinue]
      rcases hacc : alookup st.processedData c with _ | a
      · simp [emptyAgg, alookup_nil, alookup_upsertA_self]
      · simp only [Option.getD_some, Option.isSome_some, if_true]
        by_cases hdup : (alookup a.dateData (derivePivotKey p.2.ymd)).isSome = true
        · simp [hdup, hacc]
        · have hdup' : (alookup a.dateData (derivePivotKey p.2.ymd)).isSome = false := by
            cases he : (alookup a.dateData (derivePivotKey p.2.ymd)).isSome
            · rfl
            · exact absurd he hdup
          simp [hdup', alookup_upsertA_self]
    · have hc' : (centreNameOf p.2 p.1 == c) = false := by
        cases he : (centreNameOf p.2 p.1 == c)
        · rfl
        · exact absurd he hc
      simp only [Option.toList, List.filter_cons, List.filter_nil, hc',
        Bool.false_eq_true, if_false, centreContinue]
      split
      · split
        · rfl
        · exact alookup_append_single_ne _ _ _ _ hc'
      · rw [alookup_upsertA_ne _ _ _ _ hc']
        split
        · rfl
        · exact alookup_append_single_ne _ _ _ _ hc'

theorem foldl_lookup (c : String) :
    ∀ (l : List (Nat × Item)) (st : PivotState),
      alookup (l.foldl stepItem st).processedData c =
        centreContinue ((l.filterMap projOf).filter (fun r => r.centre == c))
          (alookup st.processedData c) := by
  intro l
  induction l with
  | nil => intro st; rfl
  | cons q rest ih =>
    intro st
    have hfm : (q :: rest).filterMap projOf = (projOf q).toList ++ rest.filterMap projOf := by
      rw [List.filterMap_cons]
      rcases projOf q with _ | r <;> rfl
    rw [List.foldl_cons, ih, stepItem_lookup, hfm, List.filter_append, centreContinue_append]

theorem runPivot_lookup (items : List Item) (c : String) :
    alookup (runPivot items).processedData c = centreContinue (centreProj items c) none := by
  rw [runPivot, centreProj, projRows]
  exact foldl_lookup c items.enum { processedData := [], uniqueDateInfo := [] }

theorem dedupKeys_cons (r : ProjRow) (rest : List ProjRow) :
    dedupKeys (r :: rest) = r.key :: dedupKeys (rest.filter (fun q => q.key != r.key)) := by
  simp [dedupKeys]

theorem firstCells_cons (r : ProjRow) (rest : List ProjRow) :
    firstCells (r :: rest) =
      (r.key, r.det) :: firstCells (rest.filter (fun q => q.key != r.key)) := by
  simp [firstCells]

theorem sumSpec_cons (r : ProjRow) (rest : List ProjRow) :
    sumSpec (r :: rest) =
      (match r.metric with | some v => v | none => 0) +
        sumSpec (rest.filter (fun q => q.key != r.key)) := by
  simp [sumSpec]

theorem countSpec_cons (r : ProjRow) (rest : List ProjRow) :
    countSpec (r :: rest) =
      (match r.metric with | some _ => 1 | none => 0) +
        countSpec (rest.filter (fun q => q.key != r.key)) := by
  simp [countSpec]

theorem bne_comm_str (a b : String) : (a != b) = (b != a) := by
  by_cases h : a = b
  · rw [h]
  · rw [show (a != b) = true from bne_iff_ne.mpr h,
      show (b != a) = true from bne_iff_ne.mpr (Ne.symm h)]

theorem centreContinue_some : ∀ (rows : List ProjRow) (agg : CentreAgg),
    centreContinue rows (some agg) =
      some { dateData := agg.dateData ++
               firstCells (rows.filter (fun r => (alookup agg.dateData r.key).isNone))
             totalSangatSum := agg.totalSangatSum +
               sumSpec (rows.filter (fun r => (alookup agg.dateData r.key).isNone))
             sangatCount := agg.sangatCount +
               countSpec (rows.filter (fun r => (alookup agg.dateData r.key).isNone)) } := by
  intro rows
  induction rows with
  | nil =>
    intro agg
    simp [centreContinue, firstCells, sumSpec, countSpec]
  | cons r rest ih =>
    intro agg
    simp only [centreContinue, Option.getD_some]
    by_cases hdup : (alookup agg.dateData r.key).isSome = true
    · have hpn : (alookup agg.dateData r.key).isNone = false := by
        rcases h : alookup agg.dateData r.key with _ | v
        · rw [h] at hdup; cases hdup
        · rfl
      rw [if_pos hdup, ih agg, List.filter_cons,
        if_neg (by rw [hpn]; exact Bool.false_ne_true)]
    · have hpt : (alookup agg.dateData r.key).isNone = true := by
        rcases h : alookup agg.dateData r.key with _ | v
        · rfl
        · exact absurd (by rw [h]; rfl) hdup
      rw [if_neg hdup, ih (aggStep agg r), List.filter_cons, if_pos hpt]
      have hfl : rest.filter (fun q => (alookup (aggStep agg r).dateData q.key).isNone) =
          (rest.filter (fun q => (alookup agg.dateData q.key).isNone)).filter
            (fun q => q.key != r.key) := by
        rw [List.filter_filter]
        refine List.filter_congr ?_
        intro q _
        rw [show (aggStep agg r).dateData = agg.dateData ++ [(r.key, r.det)] from rfl,
          isNone_alookup_append_single, bne_comm_str r.key q.key, Bool.and_comm]
      rw [hfl, firstCells_cons, sumSpec_cons, countSpec_cons]
      simp [aggStep, add_assoc]

theorem centreContinue_none_cons (r : ProjRow) (rest : List ProjRow) :
    centreContinue (r :: rest) none =
      some { dateData := firstCells (r :: rest)
             totalSangatSum := sumSpec (r :: rest)
             sangatCount := countSpec (r :: rest) } := by
  simp only [centreContinue, Option.getD_none]
  rw [if_neg (by rw [show emptyAgg.dateData = [] from rfl, alookup_nil]; exact
    fun hx => Bool.false_ne_true hx)]
  rw [centreContinue_some]
  have hfl : rest.filter (fun q => (alookup (aggStep emptyAgg r).dateData q.key).isNone) =
      rest.filter (fun q => q.key != r.key) := by
    refine List.filter_congr ?_
    intro q _
    rw [show (aggStep emptyAgg r).dateData = [] ++ [(r.key, r.det)] from rfl,
      isNone_alookup_append_single, alookup_nil, bne_comm_str r.key q.key]
    rfl
  rw [hfl, firstCells_cons, sumSpec_cons, countSpec_cons]
  simp [aggStep, emptyAgg]

theorem mem_dedupKeys : ∀ (rows : List ProjRow) (k : String),
    k ∈ dedupKeys rows → ∃ r ∈ rows, r.key = k
  | [], k => by simp [dedupKeys]
  | r :: rest, k => by
    intro hk
    rw [dedupKeys_cons] at hk
    rcases List.mem_cons.mp hk with rfl | hk2
    · exact ⟨r, List.mem_cons_self r rest, rfl⟩
    · rcases mem_dedupKeys (rest.filter (fun q => q.key != r.key)) k hk2 with ⟨q, hq, hqk⟩
      exact ⟨q, List.mem_cons_of_mem r (List.mem_of_mem_filter hq), hqk⟩
termination_by rows _ => rows.length
decreasing_by
  exact Nat.lt_succ_of_le (List.length_filter_le _ _)

theorem find?_filter_comm {α : Type} (l : List α) (p f : α → Bool)
    (h : ∀ a, f a = true → p a = true) :
    (l.filter p).find? f = l.find? f := by
  induction l with
  | nil => rfl
  | cons a l ih =>
    by_cases hf : f a = true
    · rw [List.filter_cons, if_pos (h a hf), List.find?_cons_of_pos _ hf,
        List.find?_cons_of_pos _ hf]
    · by_cases hp : p a = true
      · rw [List.filter_cons, if_pos hp, List.find?_cons_of_neg _ hf,
          List.find?_cons_of_neg _ hf, ih]
      · rw [List.filter_cons, if_neg hp, List.find?_cons_of_neg _ hf, ih]

theorem countSpec_le_dedup : ∀ (rows : List ProjRow),
    countSpec rows ≤ (dedupKeys rows).length
  | [] => by simp [countSpec, dedupKeys]
  | r :: rest => by
    have ih := countSpec_le_dedup (rest.filter (fun q => q.key != r.key))
    rw [countSpec_cons, dedupKeys_cons, List.length_cons]
    rcases hm : r.metric with _ | v <;> simp [hm] <;> omega
termination_by rows => rows.length
decreasing_by
  exact Nat.lt_succ_of_le (List.length_filter_le _ _)

theorem countSpec_eq_numeric : ∀ (rows : List ProjRow),
    countSpec rows = numericFirstKeyCount rows
  | [] => by simp [countSpec, numericFirstKeyCount, dedupKeys]
  | r :: rest => by
    have ih := countSpec_eq_numeric (rest.filter (fun q => q.key != r.key))
    rw [numericFirstKeyCount] at ih
    have hP : ∀ k ∈ dedupKeys (rest.filter (fun q => q.key != r.key)),
        ((((r :: rest).find? (fun q => q.key == k)).map
            (fun q => q.metric.isSome)).getD false) =
        ((((rest.filter (fun q => q.key != r.key)).find? (fun q => q.key == k)).map
            (fun q => q.metric.isSome)).getD false) := by
      intro k hk
      rcases mem_dedupKeys _ k hk with ⟨q, hq, rfl⟩
      have hne : q.key ≠ r.key := bne_iff_ne.mp (List.mem_filter.mp hq).2
      have hr : (r.key == q.key) = false := beq_eq_false_iff_ne.mpr (Ne.symm hne)
      rw [show List.find? (fun q' => q'.key == q.key) (r :: rest) =
          List.find? (fun q' => q'.key == q.key) rest from by simp [List.find?, hr]]
      rw [find?_filter_comm rest (fun a => a.key != r.key) (fun a => a.key == q.key)
        (fun a ha => bne_iff_ne.mpr (by rw [eq_of_beq ha]; exact hne))]
    have hhead : ((((r :: rest).find? (fun q => q.key == r.key)).map
        (fun q => q.metric.isSome)).getD false) = r.metric.isSome := by
      simp [List.find?]
    rw [countSpec_cons, ih, numericFirstKeyCount, dedupKeys_cons]
    simp only [List.filter_cons, hhead]
    rw [List.filter_congr hP]
    rcases hm : r.metric with _ | v <;> simp [hm] <;> omega
termination_by rows => rows.length
decreasing_by
  exact Nat.lt_succ_of_le (List.length_filter_le _ _)

/-- C7: for any centre present in the aggregation output, the stored cells
are exactly the detail fields of the first row seen for each distinct date
key (later duplicates ignored), the metric sum folds in only those first
rows (non-numeric metrics contributing nothing), the metric count equals
the number of distinct (centre, date key) pairs whose first row carries a
numeric metric, and that count is at most the number of distinct date keys
of the centre. -/
theorem pivot_first_write_wins (items : List Item) (c : String) (agg : CentreAgg)
    (h : alookup (runPivot items).processedData c = some agg) :
    agg.dateData = firstCells (centreProj items c) ∧
    agg.totalSangatSum = sumSpec (centreProj items c) ∧
    agg.sangatCount = numericFirstKeyCount (centreProj items c) ∧
    agg.sangatCount ≤ (dedupKeys (centreProj items c)).length := by
  have hcc := (runPivot_lookup items c).symm.trans h
  rcases hl : centreProj items c with _ | ⟨r, rest⟩
  · rw [hl] at hcc
    cases hcc
  · rw [hl, centreContinue_none_cons] at hcc
    obtain rfl := (Option.some.inj hcc).symm
    refine ⟨rfl, rfl, ?_, ?_⟩
    · exact countSpec_eq_numeric (r :: rest)
    · exact countSpec_le_dedup (r :: rest)

/-- C7 witness: in a bucket with a duplicate (ALWAR, 03-03-2024) row and a
blank-metric 10-03-2024 row, the ALWAR accumulator keeps the first cell of
each date, sums only the numeric 100, and counts 1 of its 2 distinct dates. -/
theorem pivot_first_write_wins_witness :
    exC7Agg.dateData = firstCells (centreProj exC7Items exC7Centre) ∧
    exC7Agg.totalSangatSum = sumSpec (centreProj exC7Items exC7Centre) ∧
    exC7Agg.sangatCount = numericFirstKeyCount (centreProj exC7Items exC7Centre) ∧
    exC7Agg.sangatCount ≤ (dedupKeys (centreProj exC7Items exC7Centre)).length :=
  pivot_first_write_wins exC7Items exC7Centre exC7Agg (by with_unfolding_all rfl)

end MSR
